import Mathlib

/-!
# OpenBook: the in-memory aggregate of `server.js`

A shallow embedding of the data store of `src/server.js`: the aggregate `db`
(`activeUserId`, `users`, `posts`, `likes`, `ratings`, `comments`), the view
projection `summarizePost`, the seed procedure `seedDB` and the request
handlers that mutate the aggregate.

Modelling conventions.

* JavaScript arrays are `List`s; `unshift` is `::`, `filter` is `List.filter`,
  `find` is `List.find?`, `findIndex` is `List.findIdx?`, `splice(i,1)` is
  `List.eraseIdx`, `a[i] = x` is `List.set`, `slice(0,n)` is `List.take`.
* `Array.prototype.sort` is a stable sort (ECMAScript 2019); it is modelled by
  the stable `List.mergeSort` with the comparator of the source.
* A finite JavaScript number is the rational it denotes; `+` and `/` on numbers
  are the IEEE 754 binary64 operations: the exact result rounded to the nearest
  double, ties to even, with overflow to the infinities (`roundDouble`). The two
  zeros are not told apart. Timestamps are integers.
* `Date.now()` and `nanoid()` are inputs of the handler that calls them.
* `saveDB` only persists the aggregate and is assumed to complete; it does not
  change the in-memory aggregate and is therefore not part of a handler model.
* A handler returns the new aggregate together with its reply; `Reply.thrown`
  is an uncaught `TypeError` (reading a property of `undefined`).
-/

namespace OpenBook

/-! ## Data model -/

/-- A user record `{ id, name, role }`. -/
structure User where
  id : String
  name : String
  role : String
deriving DecidableEq, Repr

/-- A post record, as built by `seedDB` and by `POST /api/posts`. -/
structure Post where
  id : String
  title : String
  image_url : String
  creator_name : String
  caption : String
  location : String
  people : List String
  tags : List String
  created_at : Int
  status : String
deriving DecidableEq, Repr

/-- A like record `{ postId, userId, at }` (the optional `id` is only present on
records read back from the partitioned backend). -/
structure Like where
  postId : String
  userId : String
  at_ : Int
  id : Option String := none
deriving DecidableEq, Repr

/-- A rating record `{ postId, userId, rating, at }`. -/
structure Rating where
  postId : String
  userId : String
  rating : ℚ
  at_ : Int
  id : Option String := none
deriving DecidableEq, Repr

/-- A comment record `{ id, postId, who, text, at }`. -/
structure Comment where
  id : String
  postId : String
  who : String
  text : String
  at_ : Int
deriving DecidableEq, Repr

/-- The aggregate held in the global `db`. -/
structure DB where
  activeUserId : String
  users : List User
  posts : List Post
  likes : List Like
  ratings : List Rating
  comments : List Comment
deriving DecidableEq, Repr

/-! ## JavaScript numbers -/

/-- A JavaScript number: a finite value, `NaN`, or one of the two infinities. -/
inductive JsNum where
  | num (q : ℚ)
  | nan
  | posInf
  | negInf
deriving DecidableEq, Repr

/-- Number of binary digits of `n`, with `fuel` at least that number. -/
def bitLenAux : Nat → Nat → Nat
  | 0, _ => 0
  | fuel + 1, n => if n = 0 then 0 else bitLenAux fuel (n / 2) + 1

/-- Number of binary digits of `n`. -/
def bitLen (n : Nat) : Nat := bitLenAux n n

/-- The integer `l` with `2 ^ l ≤ p / q < 2 ^ (l + 1)`, for positive `p` and `q`. -/
def floorLog2 (p q : Nat) : Int :=
  let l : Int := (bitLen p : Int) - (bitLen q : Int)
  if q * 2 ^ l.toNat ≤ p * 2 ^ (-l).toNat then l else l - 1

/-- The integer nearest to `n / d`, the even one of the two when `n / d` is
halfway between them. -/
def roundHalfEven (n d : Nat) : Nat :=
  let f := n / d
  let r := n % d
  if 2 * r < d then f else if d < 2 * r then f + 1 else if f % 2 = 0 then f else f + 1

/-- Rounding of an exact result to binary64, round to nearest, ties to even:
the significand has 53 bits, the least exponent is `-1074` (subnormal numbers),
and a rounded magnitude of `2 ^ 1024` or more is an infinity. -/
def roundDouble (x : ℚ) : JsNum :=
  if x = 0 then .num 0
  else
    let p := x.num.natAbs
    let q := x.den
    let e : Int := max (floorLog2 p q - 52) (-1074)
    let m := roundHalfEven (p * 2 ^ (-e).toNat) (q * 2 ^ e.toNat)
    if 2 ^ 1024 * 2 ^ (-e).toNat ≤ m * 2 ^ e.toNat then
      (if 0 < x then .posInf else .negInf)
    else
      .num (mkRat ((if 0 < x then 1 else -1) * ((m * 2 ^ e.toNat : Nat) : Int)) (2 ^ (-e).toNat))

/-- The value of a decimal literal of the source, such as `4.8`: the double
nearest to it. -/
def dbl (q : ℚ) : ℚ :=
  match roundDouble q with
  | .num d => d
  | _ => 0

/-- The rational `q` is a double: rounding leaves it as it is. -/
def IsDouble (q : ℚ) : Prop := roundDouble q = .num q

instance (q : ℚ) : Decidable (IsDouble q) := by
  unfold IsDouble; infer_instance

/-- The operator `+` on numbers. -/
def JsNum.add : JsNum → JsNum → JsNum
  | .num a, .num b => roundDouble (a + b)
  | .nan, _ => .nan
  | _, .nan => .nan
  | .posInf, .negInf => .nan
  | .negInf, .posInf => .nan
  | .posInf, _ => .posInf
  | _, .posInf => .posInf
  | .negInf, _ => .negInf
  | _, .negInf => .negInf

/-- The operator `/` with an array length as divisor (a length is below
`2 ^ 32`, so it is a double); a zero length gives `NaN` or an infinity. -/
def JsNum.divNat : JsNum → Nat → JsNum
  | .nan, _ => .nan
  | .num a, 0 => if a = 0 then .nan else if 0 < a then .posInf else .negInf
  | .num a, n + 1 => roundDouble (a / ((n + 1 : Nat) : ℚ))
  | .posInf, _ => .posInf
  | .negInf, _ => .negInf

/-- The double-precision sum of a list of numbers, added left to right from `0`
as `reduce((a,b)=>a+b, 0)` does. -/
def doubleSum (vs : List ℚ) : JsNum :=
  vs.foldl (fun (a : JsNum) (v : ℚ) => a.add (.num v)) (.num 0)

/-- The object returned by `summarizePost`: `{...p, like_count, ...}`. -/
structure PostView where
  post : Post
  like_count : Nat
  liked_by_me : Bool
  rating_avg : JsNum
  rating_count : Nat
  my_rating : ℚ
  comment_count : Nat
  comments : List Comment
deriving DecidableEq, Repr

/-! ## View projection -/

/-- The expression `x || 0` on a number: `0` is the only falsy rational. -/
def orZero (x : ℚ) : ℚ := if x = 0 then 0 else x

/-- The comparator `(a,b)=>b.at-a.at` of the comment sort. -/
def commentCmp (a b : Comment) : Int := b.at_ - a.at_

/-- The order induced by `commentCmp`: `a` may stay in front of `b` when the
comparator is not positive. -/
def commentLe (a b : Comment) : Bool := decide (commentCmp a b ≤ 0)

/-- The function `getMe`: `db.users.find(u=>u.id===db.activeUserId) || db.users[0]`;
`none` is `undefined` (no user at all). -/
def getMe (db : DB) : Option User :=
  match db.users.find? (fun u => u.id == db.activeUserId) with
  | some u => some u
  | none => db.users.head?

/-- The function `summarizePost(p, me)` of `server.js`, with `me` defined. -/
def summarizePost (db : DB) (p : Post) (me : User) : PostView :=
  let likes := db.likes.filter (fun x => x.postId == p.id)
  let ratings := db.ratings.filter (fun x => x.postId == p.id)
  let comments :=
    (((db.comments.filter (fun x => x.postId == p.id)).mergeSort commentLe).take 25)
  let avg : JsNum :=
    if ratings.length ≠ 0 then
      (ratings.foldl (fun (a : JsNum) (b : Rating) => a.add (.num (orZero b.rating)))
        (.num 0)).divNat ratings.length
    else .num 0
  let myRating : ℚ :=
    match ratings.find? (fun x => x.userId == me.id) with
    | some x => orZero x.rating
    | none => 0
  { post := p
    like_count := likes.length
    liked_by_me := likes.any (fun x => x.userId == me.id)
    rating_avg := avg
    rating_count := ratings.length
    my_rating := myRating
    comment_count := (db.comments.filter (fun x => x.postId == p.id)).length
    comments := comments }

/-! ## JavaScript helpers used by the handlers -/

/-- The test `Number.isFinite(r)`. -/
def JsNum.isFinite : JsNum → Bool
  | .num _ => true
  | _ => false

/-- The comparison `r < q` against a finite literal `q`. -/
def JsNum.ltLit : JsNum → ℚ → Bool
  | .num x, q => decide (x < q)
  | .negInf, _ => true
  | _, _ => false

/-- The comparison `r > q` against a finite literal `q`. -/
def JsNum.gtLit : JsNum → ℚ → Bool
  | .num x, q => decide (x > q)
  | .posInf, _ => true
  | _, _ => false

/-- Truthiness of a request field that is either absent or a string: `!x` holds
for `undefined` and for the empty string. -/
def falsy : Option String → Bool
  | none => true
  | some s => s == ""

/-- The expression `String(x || d)` for an optional string field `x`. -/
def orDefault (x : Option String) (d : String) : String :=
  match x with
  | none => d
  | some s => if s == "" then d else s

/-- Number of UTF-16 code units of a character. -/
def utf16Len (c : Char) : Nat := if c.toNat < 0x10000 then 1 else 2

/-- The longest run of leading characters that fits in `n` UTF-16 code units. -/
def takeUnits : Nat → List Char → List Char
  | _, [] => []
  | n, c :: cs => if utf16Len c ≤ n then c :: takeUnits (n - utf16Len c) cs else []

/-- The call `s.slice(0, n)`, which cuts after `n` UTF-16 code units; when the
cut falls inside a surrogate pair the source keeps a lone surrogate, which a
`String` cannot hold and which is left out here. -/
def jsSlice (s : String) (n : Nat) : String := String.mk (takeUnits n s.data)

/-- The white space and line terminator characters removed by `trim()`. -/
def isJsSpace (c : Char) : Bool :=
  let n := c.toNat
  n == 0x09 || n == 0x0A || n == 0x0B || n == 0x0C || n == 0x0D || n == 0x20 ||
  n == 0xA0 || n == 0x1680 || (0x2000 ≤ n && n ≤ 0x200A) || n == 0x2028 ||
  n == 0x2029 || n == 0x202F || n == 0x205F || n == 0x3000 || n == 0xFEFF

/-- The call `s.trim()` on the characters of a string. -/
def jsTrimChars (cs : List Char) : List Char :=
  ((cs.dropWhile isJsSpace).reverse.dropWhile isJsSpace).reverse

/-- The call `s.trim()`. -/
def jsTrim (s : String) : String := String.mk (jsTrimChars s.data)

/-- The call `s.split(",")` on the characters of a string: the pieces between
the commas, an empty input giving one empty piece. -/
def jsSplitComma : List Char → List (List Char)
  | [] => [[]]
  | c :: cs =>
    if c = ',' then [] :: jsSplitComma cs
    else
      match jsSplitComma cs with
      | [] => [[c]]
      | p :: ps => (c :: p) :: ps

/-- The pipeline `String(x || "").split(",").map(s=>s.trim()).filter(Boolean).slice(0, n)`
of `POST /api/posts` (used with `n = 10` for `people` and `n = 12` for `tags`). -/
def parseList (n : Nat) (x : Option String) : List String :=
  ((((jsSplitComma (orDefault x "").data).map jsTrimChars).filter
      (fun cs => !cs.isEmpty)).take n).map String.mk

/-- Replace by `f x` the first element `x` satisfying `pred`: the effect of
`const x = xs.find(pred); x.field = ...` on the array `xs`. -/
def updateFirst {α : Type} (pred : α → Bool) (f : α → α) : List α → List α
  | [] => []
  | x :: xs => if pred x then f x :: xs else x :: updateFirst pred f xs

/-- The roles accepted by `new Set(["consumer","creator","admin"]).has(role)`. -/
def allowedRole (r : String) : Bool := r == "consumer" || r == "creator" || r == "admin"

/-! ## Replies -/

/-- The JSON bodies sent by the handlers. -/
inductive Body where
  | user (u : User)
  | post (v : PostView)
  | ok
  | okStatus (status : String)
  | dump (d : DB)
deriving DecidableEq, Repr

/-- The outcome of a handler: a JSON reply with its status code, an error reply
`res.status(code).json({ error: msg })`, or an uncaught `TypeError`. -/
inductive Reply where
  | json (code : Nat) (body : Body)
  | error (code : Nat) (msg : String)
  | thrown
deriving DecidableEq, Repr

/-! ## Seed procedure -/

/-- The literal array of sample posts in `seedDB`, as
`(title, image_url, creator_name, tags, caption, location, people)`. -/
def seedPostData :
    List (String × String × String × List String × String × String × List String) :=
  [ ("Golden Hour in Santorini", "https://images.unsplash.com/photo-1570077188670-e3a8d69ac5ff?w=1200", "John Doe", ["sunset","travel"], "Soft blue hour over white rooftops.", "Santorini, Greece", ["John"]),
    ("Mountain Serenity", "https://images.unsplash.com/photo-1506905925346-21bda4d32df4?w=1200", "Jane Smith", ["mountains","nature"], "Quiet clouds hugging the peaks.", "Himalayas, Nepal", ["Jane"]),
    ("Urban Reflections", "https://images.unsplash.com/photo-1519501025264-65ba15a82390?w=1200", "Sarah Johnson", ["city","night"], "Rainy streets, neon reflections.", "New York, USA", ["Sarah"]),
    ("Blooming Paradise", "https://images.unsplash.com/photo-1499002238440-d264edd596ec?w=1200", "Sarah Johnson", ["flowers","nature"], "Spring colors everywhere.", "Kyoto, Japan", ["Sarah"]),
    ("Ocean Dreams", "https://images.unsplash.com/photo-1514282401047-d79a71a590e8?w=1200", "John Doe", ["beach","ocean"], "Waves + golden light.", "Algarve, Portugal", ["John"]),
    ("Forest Whispers", "https://images.unsplash.com/photo-1448375240586-882707db888b?w=1200", "Jane Smith", ["forest","trees"], "Mist between tall trees.", "Scotland", ["Jane"]),
    ("Desert Sunset", "https://images.unsplash.com/photo-1509316785289-025f5b846b35?w=1200", "John Doe", ["desert","sunset"], "Clean lines of dunes.", "Dubai, UAE", ["John"]),
    ("Northern Lights", "https://images.unsplash.com/photo-1483347756197-71ef80e95f73?w=1200", "Sarah Johnson", ["aurora","night","nature"], "A sky that doesn’t look real.", "Iceland", ["Sarah"]) ]

/-- The literal `seedRatings` of `seedDB`, each entry the double its decimal
literal denotes. -/
def seedRatings : List ℚ := [4.8, 4.9, 4.6, 4.7, 4.9, 4.5, 4.8, 5.0].map dbl

/-- The array `seedPosts` of `seedDB`: the `i`-th post takes the `i`-th value
returned by `nanoid()`. -/
def seedPosts (now : Int) (nano : Nat → String) : List Post :=
  seedPostData.enum.map (fun ip =>
    { id := nano ip.1
      title := ip.2.1
      image_url := ip.2.2.1
      creator_name := ip.2.2.2.1
      caption := ip.2.2.2.2.2.1
      location := ip.2.2.2.2.2.2.1
      people := ip.2.2.2.2.2.2.2
      tags := ip.2.2.2.2.1
      created_at := now - ((ip.1 : Int) + 1) * 3600 * 1000
      status := "published" })

/-- The function `seedDB`; `now` is the value of `Date.now()` and `nano k` the
value of the `k`-th call of `nanoid()` (eight calls for the posts, then one per
seeded comment). -/
def seedDB (now : Int) (nano : Nat → String) : DB :=
  { activeUserId := "u_consumer"
    users :=
      [ { id := "u_admin", name := "Admin", role := "admin" },
        { id := "u_creator", name := "Creator", role := "creator" },
        { id := "u_consumer", name := "Consumer", role := "consumer" },
        { id := "u_john", name := "John Doe", role := "creator" },
        { id := "u_jane", name := "Jane Smith", role := "creator" },
        { id := "u_sarah", name := "Sarah Johnson", role := "creator" } ]
    posts := seedPosts now nano
    likes := []
    ratings := (seedPosts now nano).enum.map (fun ip =>
      { postId := ip.2.id, userId := "seed", rating := seedRatings.getD ip.1 0, at_ := now })
    comments :=
      (((seedPosts now nano).enum.filter (fun ip => ip.1 % 2 == 1)).map Prod.snd).enum.map
        (fun jp =>
          { id := nano (seedPostData.length + jp.1), postId := jp.2.id, who := "Consumer",
            text := "Love this!", at_ := now - 10000 }) }

/-! ## Request handlers -/

/-- Handler `POST /api/auth/switch`. -/
def authSwitch (db : DB) (userId : Option String) : DB × Reply :=
  match userId with
  | none => (db, .error 400 "userId is required")
  | some uid =>
    if uid == "" then (db, .error 400 "userId is required")
    else
      match db.users.find? (fun x => x.id == uid) with
      | none => (db, .error 404 "User not found")
      | some u => ({ db with activeUserId := uid }, .json 200 (.user u))

/-- Handler `POST /api/auth/update`: the object returned by `getMe` is changed in
place, which changes the entry of `db.users` it is. -/
def authUpdate (db : DB) (name role : Option String) : DB × Reply :=
  if falsy name || falsy role then (db, .error 400 "name and role are required")
  else if !allowedRole (orDefault role "") then (db, .error 400 "Invalid role")
  else
    let set := fun (u : User) =>
      { u with name := jsSlice (orDefault name "") 60, role := orDefault role "" }
    match db.users.find? (fun u => u.id == db.activeUserId) with
    | some u =>
      ({ db with users := updateFirst (fun u => u.id == db.activeUserId) set db.users },
        .json 200 (.user (set u)))
    | none =>
      match db.users with
      | [] => (db, .thrown)
      | u :: us => ({ db with users := set u :: us }, .json 200 (.user (set u)))

/-- Handler `POST /api/users`. -/
def createUser (db : DB) (name role : Option String) (newId : String) : DB × Reply :=
  match getMe db with
  | none => (db, .thrown)
  | some me =>
    if me.role != "admin" then (db, .error 403 "Admin only")
    else if falsy name then (db, .error 400 "name is required")
    else
      let r := orDefault role "creator"
      if !allowedRole r then (db, .error 400 "Invalid role")
      else
        let user : User := { id := newId, name := jsSlice (orDefault name "") 60, role := r }
        ({ db with users := user :: db.users }, .json 201 (.user user))

/-- Handler `DELETE /api/users/:id`. -/
def deleteUser (db : DB) (id : String) : DB × Reply :=
  match getMe db with
  | none => (db, .thrown)
  | some me =>
    if me.role != "admin" then (db, .error 403 "Admin only")
    else if id == "u_admin" then (db, .error 400 "Cannot delete seeded admin")
    else
      ({ db with
          users := db.users.filter (fun u => u.id != id)
          activeUserId := if db.activeUserId == id then "u_consumer" else db.activeUserId },
        .json 200 .ok)

/-- Handler `POST /api/posts`; `file` tells whether `req.file` is present,
`imageUrl` is the URL the upload resolved to, `newId` and `now` are the values
of `nanoid()` and `Date.now()`. -/
def createPost (db : DB) (file : Bool) (title caption location people tags : Option String)
    (imageUrl newId : String) (now : Int) : DB × Reply :=
  match getMe db with
  | none => (db, .thrown)
  | some me =>
    if !(me.role == "creator" || me.role == "admin") then (db, .error 403 "Creator/Admin only")
    else if !file then (db, .error 400 "image file is required")
    else
      let post : Post :=
        { id := newId
          title := jsSlice (orDefault title "Untitled") 120
          image_url := imageUrl
          creator_name := me.name
          caption := jsSlice (orDefault caption "") 800
          location := jsSlice (orDefault location "") 120
          people := parseList 10 people
          tags := parseList 12 tags
          created_at := now
          status := "published" }
      let db' := { db with posts := post :: db.posts }
      (db', .json 201 (.post (summarizePost db' post me)))

/-- Handler `POST /api/posts/:id/like`. -/
def toggleLike (db : DB) (id : String) (now : Int) : DB × Reply :=
  match db.posts.find? (fun x => x.id == id) with
  | none => (db, .error 404 "Post not found")
  | some p =>
    match getMe db with
    | none => (db, .thrown)
    | some me =>
      let db' :=
        match db.likes.findIdx? (fun x => x.postId == id && x.userId == me.id) with
        | some idx => { db with likes := db.likes.eraseIdx idx }
        | none => { db with likes := { postId := id, userId := me.id, at_ := now } :: db.likes }
      (db', .json 200 (.post (summarizePost db' p me)))

/-- Handler `POST /api/posts/:id/rate`; `r` is the value of
`Number(req.body?.rating)`. -/
def ratePost (db : DB) (id : String) (r : JsNum) (now : Int) : DB × Reply :=
  match db.posts.find? (fun x => x.id == id) with
  | none => (db, .error 404 "Post not found")
  | some p =>
    if !r.isFinite || r.ltLit 1 || r.gtLit 5 then (db, .error 400 "rating must be 1-5")
    else
      match r, getMe db with
      | .num q, some me =>
        let obj : Rating := { postId := id, userId := me.id, rating := q, at_ := now }
        let db' :=
          match db.ratings.findIdx? (fun x => x.postId == id && x.userId == me.id) with
          | some idx => { db with ratings := db.ratings.set idx obj }
          | none => { db with ratings := obj :: db.ratings }
        (db', .json 200 (.post (summarizePost db' p me)))
      | _, _ => (db, .thrown)

/-- Handler `POST /api/posts/:id/comments`. -/
def addComment (db : DB) (id : String) (text : Option String) (newId : String) (now : Int) :
    DB × Reply :=
  match db.posts.find? (fun x => x.id == id) with
  | none => (db, .error 404 "Post not found")
  | some p =>
    let t := jsTrim (orDefault text "")
    if t == "" then (db, .error 400 "text is required")
    else
      match getMe db with
      | none => (db, .thrown)
      | some me =>
        let c : Comment :=
          { id := newId, postId := id, who := me.name, text := jsSlice t 500, at_ := now }
        let db' := { db with comments := c :: db.comments }
        (db', .json 200 (.post (summarizePost db' p me)))

/-- Handler `POST /api/admin/reset`: the global `db` is assigned the result of
`seedDB()`. -/
def adminReset (_db : DB) (now : Int) (nano : Nat → String) : DB × Reply :=
  (seedDB now nano, .json 200 .ok)

/-- Handler `POST /api/admin/posts/:id/status`. -/
def toggleStatus (db : DB) (id : String) : DB × Reply :=
  match getMe db with
  | none => (db, .thrown)
  | some me =>
    if me.role != "admin" then (db, .error 403 "Admin only")
    else
      match db.posts.find? (fun x => x.id == id) with
      | none => (db, .error 404 "Post not found")
      | some p =>
        let flip := fun (q : Post) =>
          { q with status := if q.status == "published" then "hidden" else "published" }
        ({ db with posts := updateFirst (fun x => x.id == id) flip db.posts },
          .json 200 (.okStatus (flip p).status))

/-- Handler `DELETE /api/admin/posts/:id`. -/
def deletePost (db : DB) (id : String) : DB × Reply :=
  match getMe db with
  | none => (db, .thrown)
  | some me =>
    if me.role != "admin" then (db, .error 403 "Admin only")
    else
      ({ db with
          posts := db.posts.filter (fun p => p.id != id)
          likes := db.likes.filter (fun x => x.postId != id)
          ratings := db.ratings.filter (fun x => x.postId != id)
          comments := db.comments.filter (fun x => x.postId != id) },
        .json 200 .ok)

/-- Handler `GET /api/admin/export`. -/
def adminExport (db : DB) : DB × Reply :=
  match getMe db with
  | none => (db, .thrown)
  | some me =>
    if me.role != "admin" then (db, .error 403 "Admin only")
    else (db, .json 200 (.dump db))

/-! ## Invariants and reachable states -/

/-- The key `(postId, userId)` of a like. -/
def likeKey (x : Like) : String × String := (x.postId, x.userId)

/-- The key `(postId, userId)` of a rating. -/
def ratingKey (x : Rating) : String × String := (x.postId, x.userId)

/-- At most one Like per `(postId, userId)` pair. -/
def LikesUnique (ls : List Like) : Prop := (ls.map likeKey).Nodup

/-- At most one Rating per `(postId, userId)` pair. -/
def RatingsUnique (rs : List Rating) : Prop := (rs.map ratingKey).Nodup

instance (ls : List Like) : Decidable (LikesUnique ls) := by
  unfold LikesUnique; infer_instance

instance (rs : List Rating) : Decidable (RatingsUnique rs) := by
  unfold RatingsUnique; infer_instance

/-- The invariant of the data model: at most one Like and at most one Rating per
`(postId, userId)` pair. -/
def PairsUnique (db : DB) : Prop := LikesUnique db.likes ∧ RatingsUnique db.ratings

instance (db : DB) : Decidable (PairsUnique db) := by
  unfold PairsUnique; infer_instance

/-- The contract of `nanoid()` used by `seedDB`: the values returned by the calls
of one run of `seedDB` are pairwise different. -/
def FreshIds (nano : Nat → String) : Prop := ((List.range 12).map nano).Nodup

instance (nano : Nat → String) : Decidable (FreshIds nano) := by
  unfold FreshIds; infer_instance

/-- A request that mutates the aggregate, with the values the environment
supplies to its handler. -/
inductive Op where
  | authSwitch (userId : Option String)
  | authUpdate (name role : Option String)
  | createUser (name role : Option String) (newId : String)
  | deleteUser (id : String)
  | createPost (file : Bool) (title caption location people tags : Option String)
      (imageUrl newId : String) (now : Int)
  | toggleLike (id : String) (now : Int)
  | ratePost (id : String) (r : JsNum) (now : Int)
  | addComment (id : String) (text : Option String) (newId : String) (now : Int)
  | adminReset (now : Int) (nano : Nat → String)
  | toggleStatus (id : String)
  | deletePost (id : String)

/-- Run the handler of a request on the aggregate. -/
def step (db : DB) : Op → DB × Reply
  | .authSwitch userId => authSwitch db userId
  | .authUpdate name role => authUpdate db name role
  | .createUser name role newId => createUser db name role newId
  | .deleteUser id => deleteUser db id
  | .createPost file title caption location people tags imageUrl newId now =>
    createPost db file title caption location people tags imageUrl newId now
  | .toggleLike id now => toggleLike db id now
  | .ratePost id r now => ratePost db id r now
  | .addComment id text newId now => addComment db id text newId now
  | .adminReset now nano => adminReset db now nano
  | .toggleStatus id => toggleStatus db id
  | .deletePost id => deletePost db id

/-- The environment of a request respects the contract of `nanoid()`. -/
def Op.EnvOk : Op → Prop
  | .adminReset _ nano => FreshIds nano
  | _ => True

/-- The aggregates reachable from a seeded aggregate by requests. -/
inductive Reachable : DB → Prop where
  | seed (now : Int) (nano : Nat → String) (h : FreshIds nano) : Reachable (seedDB now nano)
  | step (db : DB) (op : Op) (h : Reachable db) (henv : op.EnvOk) : Reachable (step db op).1

/-- A requested rating the specification accepts: a finite number within
`[1,5]`. -/
def ValidRating (r : JsNum) : Prop := ∃ q, r = .num q ∧ 1 ≤ q ∧ q ≤ 5

/-- A sample run of `nanoid()`: twelve different ids. -/
def sampleNano (n : Nat) : String :=
  ["n0", "n1", "n2", "n3", "n4", "n5", "n6", "n7", "n8", "n9", "n10", "n11"].getD n ""

/-! ## Read-only post handler -/

/-- Handler `GET /api/posts/:id`. The handler never reads a property of `me`
itself; `summarizePost(p, undefined)` throws only when one of its callbacks
runs, that is when the post has a Rating or a Like. -/
def getPost (db : DB) (id : String) : DB × Reply :=
  match db.posts.find? (fun x => x.id == id) with
  | none => (db, .error 404 "Post not found")
  | some p =>
    match getMe db with
    | some me => (db, .json 200 (.post (summarizePost db p me)))
    | none =>
      if (db.ratings.filter (fun x => x.postId == p.id)).isEmpty &&
          (db.likes.filter (fun x => x.postId == p.id)).isEmpty then
        (db, .json 200 (.post (summarizePost db p { id := "", name := "", role := "" })))
      else (db, .thrown)

/-! ## Persistence: `loadDB` and `saveDB` over the two backends

The persisted state is explicit: the content of `db.json` for the file backend
(`none` when the file does not exist; `JSON.parse` is taken to invert
`JSON.stringify` on aggregates) and the items of the container for the
partitioned backend, a list whose items have pairwise different `(type, id)`.
-/

/-- An item of the container: a record together with its `type` discriminator;
`metaItem` is `{ id: "meta", type: "meta", activeUserId }`. -/
inductive Item where
  | metaItem (activeUserId : String)
  | user (u : User)
  | post (p : Post)
  | like (x : Like)
  | rating (x : Rating)
  | comment (c : Comment)
deriving DecidableEq, Repr

/-- The `type` field of an item, which is also its partition key. -/
def Item.type : Item → String
  | .metaItem _ => "meta"
  | .user _ => "user"
  | .post _ => "post"
  | .like _ => "like"
  | .rating _ => "rating"
  | .comment _ => "comment"

/-- The `id` field of an item. -/
def Item.id : Item → String
  | .metaItem _ => "meta"
  | .user u => u.id
  | .post p => p.id
  | .like x => x.id.getD ""
  | .rating x => x.id.getD ""
  | .comment c => c.id

/-- The identity of an item in the container: partition key and id. -/
def Item.key (it : Item) : String × String := (it.type, it.id)

/-- The call `cosmos.upsert(item)`: the item with the same `(type, id)` is
overwritten, and the item is added when there is none. -/
def upsert : List Item → Item → List Item
  | [], it => [it]
  | x :: xs, it => if x.key = it.key then it :: xs else x :: upsert xs it

/-- The item written for a like: `{ ...x, type: "like", id: x.id || postId:userId }`. -/
def likeItem (x : Like) : Item :=
  .like { x with id := some (orDefault x.id (x.postId ++ ":" ++ x.userId)) }

/-- The item written for a rating:
`{ ...x, type: "rating", id: x.id || postId:userId }`. -/
def ratingItem (x : Rating) : Item :=
  .rating { x with id := some (orDefault x.id (x.postId ++ ":" ++ x.userId)) }

/-- The branch `DB_PROVIDER === "cosmos"` of `saveDB`: one upsert for the meta
item, then one per user, post, like, rating and comment. -/
def saveCosmos (s : List Item) (db : DB) : List Item :=
  let s := upsert s (.metaItem db.activeUserId)
  let s := db.users.foldl (fun s u => upsert s (.user u)) s
  let s := db.posts.foldl (fun s p => upsert s (.post p)) s
  let s := db.likes.foldl (fun s x => upsert s (likeItem x)) s
  let s := db.ratings.foldl (fun s x => upsert s (ratingItem x)) s
  db.comments.foldl (fun s x => upsert s (.comment x)) s

/-- The branch `DB_PROVIDER === "cosmos"` of `loadDB`: the meta item read by id
and one query per type; the result is always an object. -/
def loadCosmos (s : List Item) : DB :=
  let users := s.filterMap (fun it => match it with | .user u => some u | _ => none)
  let fallback := orDefault (users.head?.map User.id) "u_consumer"
  { activeUserId :=
      match s.findSome? (fun it => match it with | .metaItem a => some a | _ => none) with
      | some a => orDefault (some a) fallback
      | none => fallback
    users := users
    posts := s.filterMap (fun it => match it with | .post p => some p | _ => none)
    likes := s.filterMap (fun it => match it with | .like x => some x | _ => none)
    ratings := s.filterMap (fun it => match it with | .rating x => some x | _ => none)
    comments := s.filterMap (fun it => match it with | .comment c => some c | _ => none) }

/-- The value of `DB_PROVIDER`. -/
inductive Provider where
  | file
  | cosmos
deriving DecidableEq, Repr

/-- The persisted state: the content of `db.json` (`none` when the file does not
exist) and the items of the container. -/
structure Persisted where
  file : Option DB
  container : List Item
deriving DecidableEq, Repr

/-- The function `loadDB`; `none` is the value `null`. -/
def loadDB (prov : Provider) (st : Persisted) : Option DB :=
  match prov with
  | .cosmos => some (loadCosmos st.container)
  | .file => st.file

/-- The function `saveDB`. -/
def saveDB (prov : Provider) (st : Persisted) (db : DB) : Persisted :=
  match prov with
  | .cosmos => { st with container := saveCosmos st.container db }
  | .file => { st with file := some db }

/-- The start-up block `db = await loadDB(); if (!db) db = await seedDB();`. -/
def startup (prov : Provider) (st : Persisted) (now : Int) (nano : Nat → String) : DB :=
  match loadDB prov st with
  | some db => db
  | none => seedDB now nano

/-- The items of the container have pairwise different `(type, id)`. -/
def KeysUnique (s : List Item) : Prop := (s.map Item.key).Nodup

instance (s : List Item) : Decidable (KeysUnique s) := by
  unfold KeysUnique; infer_instance

/-- The sequence of items `saveDB` hands to `cosmos.upsert`, in order. -/
def saveItems (db : DB) : List Item :=
  .metaItem db.activeUserId ::
    (db.users.map .user ++ (db.posts.map .post ++ (db.likes.map likeItem ++
      (db.ratings.map ratingItem ++ db.comments.map .comment))))

/-- The item stored under a key, if any. -/
def lookup (s : List Item) (k : String × String) : Option Item :=
  s.find? (fun x => decide (x.key = k))

/-- The last item of a batch of upserts written under the key `k`, or `a` when
the batch writes none. -/
def lastWrite (k : String × String) (a : Option Item) (l : List Item) : Option Item :=
  l.foldl (fun acc it => if it.key = k then some it else acc) a

/-! ## Sample aggregates -/

/-- A sample consumer. -/
def sampleConsumer : User := { id := "u_consumer", name := "Consumer", role := "consumer" }

/-- A sample admin. -/
def sampleAdmin : User := { id := "u_admin", name := "Admin", role := "admin" }

/-- A sample post. -/
def samplePost : Post :=
  { id := "p1", title := "Ocean Dreams", image_url := "/uploads/1.jpg", creator_name := "John Doe",
    caption := "Waves", location := "Algarve", people := ["John"], tags := ["beach", "ocean"],
    created_at := 1000, status := "published" }

/-- A small aggregate whose active user is the consumer, who likes and has rated
the sample post. -/
def sampleDB : DB :=
  { activeUserId := "u_consumer"
    users := [sampleAdmin, sampleConsumer]
    posts := [samplePost]
    likes := [{ postId := "p1", userId := "u_consumer", at_ := 5 }]
    ratings := [{ postId := "p1", userId := "seed", rating := 4, at_ := 0 },
                { postId := "p1", userId := "u_consumer", rating := 2, at_ := 7 }]
    comments := [{ id := "c2", postId := "p1", who := "Consumer", text := "Again", at_ := 9 },
                 { id := "c1", postId := "p1", who := "Consumer", text := "Love this!", at_ := 9 }] }

/-- The sample aggregate with the admin as active user. -/
def sampleAdminDB : DB := { sampleDB with activeUserId := "u_admin" }

/-- The seeded aggregate after the consumer has given itself the admin role
(`POST /api/auth/update`) and then deleted its own user
(`DELETE /api/users/u_consumer`). -/
def selfDeletedDB : DB :=
  (step (step (seedDB 0 sampleNano) (.authUpdate (some "Consumer") (some "admin"))).1
    (.deleteUser "u_consumer")).1

/-- The users collection holds a user with the reserved id `"u_admin"`. -/
def HasSeedAdmin (db : DB) : Prop := "u_admin" ∈ db.users.map User.id

instance (db : DB) : Decidable (HasSeedAdmin db) := by
  unfold HasSeedAdmin; infer_instance

/-! ## Shared lemmas -/

theorem orZero_eq (x : ℚ) : orZero x = x := by
  unfold orZero
  split_ifs with h
  · exact h.symm
  · rfl

theorem foldl_orZero_eq_doubleSum (rs : List Rating) (a : JsNum) :
    rs.foldl (fun (a : JsNum) (b : Rating) => a.add (.num (orZero b.rating))) a =
      (rs.map Rating.rating).foldl (fun (a : JsNum) (v : ℚ) => a.add (.num v)) a := by
  induction rs generalizing a with
  | nil => rfl
  | cons r rs ih =>
    simp only [List.foldl_cons, List.map_cons]
    rw [ih, orZero_eq]

/-- When every partial sum is a double, the double-precision sum is exact. -/
theorem foldl_add_exact (vs : List ℚ) :
    ∀ a : ℚ, (∀ s ∈ List.scanl (fun x y => x + y) a vs, IsDouble s) →
      vs.foldl (fun (acc : JsNum) (v : ℚ) => acc.add (.num v)) (.num a) = .num (a + vs.sum) := by
  induction vs with
  | nil => intro a _; simp
  | cons v vs ih =>
    intro a h
    have htail : ∀ s ∈ List.scanl (fun x y => x + y) (a + v) vs, IsDouble s := by
      intro s hs
      apply h
      rw [List.scanl_cons]
      exact List.mem_cons_of_mem _ hs
    have hhead : IsDouble (a + v) := by
      apply htail
      cases vs <;> simp [List.scanl]
    have hstep : (JsNum.num a).add (.num v) = .num (a + v) := hhead
    simp only [List.foldl_cons, List.sum_cons]
    rw [hstep, ih (a + v) htail, add_assoc]

@[simp] theorem summarizePost_like_count (db : DB) (p : Post) (me : User) :
    (summarizePost db p me).like_count =
      (db.likes.filter (fun x => x.postId == p.id)).length := rfl

@[simp] theorem summarizePost_liked_by_me (db : DB) (p : Post) (me : User) :
    (summarizePost db p me).liked_by_me =
      (db.likes.filter (fun x => x.postId == p.id)).any (fun x => x.userId == me.id) := rfl

@[simp] theorem summarizePost_rating_count (db : DB) (p : Post) (me : User) :
    (summarizePost db p me).rating_count =
      (db.ratings.filter (fun x => x.postId == p.id)).length := rfl

theorem summarizePost_my_rating (db : DB) (p : Post) (me : User) :
    (summarizePost db p me).my_rating =
      match (db.ratings.filter (fun x => x.postId == p.id)).find?
          (fun x => x.userId == me.id) with
      | some x => orZero x.rating
      | none => 0 := rfl

@[simp] theorem summarizePost_comment_count (db : DB) (p : Post) (me : User) :
    (summarizePost db p me).comment_count =
      (db.comments.filter (fun x => x.postId == p.id)).length := rfl

@[simp] theorem summarizePost_comments (db : DB) (p : Post) (me : User) :
    (summarizePost db p me).comments =
      ((db.comments.filter (fun x => x.postId == p.id)).mergeSort commentLe).take 25 := rfl

/-- A successful `findIndex` splits the array at the first match. -/
theorem findIdx?_some_split {α : Type} (q : α → Bool) :
    ∀ (l : List α) (i : Nat), l.findIdx? q = some i →
      ∃ a x b, l = a ++ x :: b ∧ a.length = i ∧ q x = true ∧ ∀ y ∈ a, q y = false := by
  intro l
  induction l with
  | nil => intro i h; simp at h
  | cons z zs ih =>
    intro i h
    rw [List.findIdx?_cons] at h
    by_cases hz : q z = true
    · simp only [hz, if_true] at h
      refine ⟨[], z, zs, rfl, ?_, hz, by simp⟩
      simpa using h
    · simp only [hz] at h
      rw [List.findIdx?_succ] at h
      cases hres : zs.findIdx? q with
      | none => simp [hres] at h
      | some j =>
        obtain ⟨a, x, b, hl, hlen, hx, ha⟩ := ih j hres
        simp [hres] at h
        refine ⟨z :: a, x, b, by simp [hl], by simp [hlen, ← h], hx, ?_⟩
        intro y hy
        rcases List.mem_cons.mp hy with rfl | hy
        · simpa using hz
        · exact ha y hy

theorem findIdx?_none_forall {α : Type} (q : α → Bool) (l : List α)
    (h : l.findIdx? q = none) : ∀ y ∈ l, q y = false := by
  intro y hy
  have := List.findIdx?_eq_none_iff.mp h y hy
  simpa using this

theorem eraseIdx_split {α : Type} (a : List α) (x : α) (b : List α) :
    (a ++ x :: b).eraseIdx a.length = a ++ b := by
  induction a with
  | nil => rfl
  | cons z zs ih => simp [List.eraseIdx, ih]

theorem set_split {α : Type} (a : List α) (x y : α) (b : List α) :
    (a ++ x :: b).set a.length y = a ++ y :: b := by
  induction a with
  | nil => rfl
  | cons z zs ih => simp [List.set, ih]

theorem getMe_mem (db : DB) (u : User) (h : getMe db = some u) : u ∈ db.users := by
  unfold getMe at h
  split at h
  · next v hv =>
    have := List.mem_of_find?_eq_some hv
    simp only [Option.some.injEq] at h
    exact h ▸ this
  · exact List.mem_of_mem_head? h

theorem find?_post_of_mem (db : DB) (P : Post) (h : P ∈ db.posts) :
    ∃ p, db.posts.find? (fun x => x.id == P.id) = some p ∧ p.id = P.id := by
  cases hf : db.posts.find? (fun x => x.id == P.id) with
  | none =>
    have := List.find?_eq_none.mp hf P h
    simp at this
  | some p =>
    have := List.find?_some hf
    exact ⟨p, rfl, by simpa using this⟩

theorem toggleLike_fst (db : DB) (id : String) (now : Int) (p : Post) (U : User)
    (hp : db.posts.find? (fun x => x.id == id) = some p) (hU : getMe db = some U) :
    (toggleLike db id now).1 =
      match db.likes.findIdx? (fun x => x.postId == id && x.userId == U.id) with
      | some idx => { db with likes := db.likes.eraseIdx idx }
      | none => { db with likes := { postId := id, userId := U.id, at_ := now } :: db.likes } := by
  simp only [toggleLike, hp, hU]

theorem toggleLike_fst_likes (db : DB) (L : List Like) (id : String) (now : Int) (p : Post)
    (U : User) (hp : db.posts.find? (fun x => x.id == id) = some p) (hU : getMe db = some U) :
    (toggleLike { db with likes := L } id now).1 =
      match L.findIdx? (fun x => x.postId == id && x.userId == U.id) with
      | some idx => { db with likes := L.eraseIdx idx }
      | none => { db with likes := { postId := id, userId := U.id, at_ := now } :: L } :=
  toggleLike_fst { db with likes := L } id now p U hp hU

/-- With at most one Like per pair, no second Like of the pair exists around the
first one. -/
theorem likes_unique_split (a b : List Like) (x : Like) (id uid : String)
    (hinv : LikesUnique (a ++ x :: b))
    (hx : (x.postId == id && x.userId == uid) = true) :
    ∀ y ∈ a ++ b, (y.postId == id && y.userId == uid) = false := by
  intro y hy
  by_contra hne
  have hyq : (y.postId == id && y.userId == uid) = true := by simpa using hne
  simp only [Bool.and_eq_true, beq_iff_eq] at hx hyq
  have hkey : likeKey y = likeKey x := by
    simp [likeKey, hx.1, hx.2, hyq.1, hyq.2]
  unfold LikesUnique at hinv
  rw [List.map_append, List.map_cons] at hinv
  have hnd := List.nodup_middle.mp hinv
  rw [List.nodup_cons] at hnd
  apply hnd.1
  rw [← List.map_append, ← hkey]
  exact List.mem_map_of_mem likeKey hy

/-- A match preceded by no match is the one `findIndex` returns. -/
theorem findIdx?_split_eq {α : Type} (q : α → Bool) (a : List α) (x : α) (b : List α)
    (ha : ∀ y ∈ a, q y = false) (hx : q x = true) :
    (a ++ x :: b).findIdx? q = some a.length := by
  induction a with
  | nil => simp [List.findIdx?_cons, hx]
  | cons z zs ih =>
    have hz : q z = false := ha z (List.mem_cons_self _ _)
    have hzs : ∀ y ∈ zs, q y = false := fun y hy => ha y (List.mem_cons_of_mem _ hy)
    simp [List.findIdx?_cons, hz, List.findIdx?_succ, ih hzs]

theorem filter_eq_nil_of_forall {α : Type} (q : α → Bool) (l : List α)
    (h : ∀ y ∈ l, q y = false) : l.filter q = [] := by
  rw [List.filter_eq_nil_iff]
  intro y hy
  simp [h y hy]

theorem ratePost_fst (db : DB) (id : String) (v : ℚ) (now : Int) (p : Post) (U : User)
    (hp : db.posts.find? (fun x => x.id == id) = some p) (hU : getMe db = some U)
    (h1 : 1 ≤ v) (h5 : v ≤ 5) :
    (ratePost db id (.num v) now).1 =
      match db.ratings.findIdx? (fun x => x.postId == id && x.userId == U.id) with
      | some idx =>
        { db with ratings :=
            db.ratings.set idx { postId := id, userId := U.id, rating := v, at_ := now } }
      | none =>
        { db with ratings :=
            { postId := id, userId := U.id, rating := v, at_ := now } :: db.ratings } := by
  have hv : (!(JsNum.num v).isFinite || (JsNum.num v).ltLit 1 || (JsNum.num v).gtLit 5) = false := by
    simp [JsNum.isFinite, JsNum.ltLit, JsNum.gtLit, h1, h5]
  simp only [ratePost, hp, hU, hv]
  rfl

theorem ratePost_fst_ratings (db : DB) (R : List Rating) (id : String) (v : ℚ) (now : Int)
    (p : Post) (U : User)
    (hp : db.posts.find? (fun x => x.id == id) = some p) (hU : getMe db = some U)
    (h1 : 1 ≤ v) (h5 : v ≤ 5) :
    (ratePost { db with ratings := R } id (.num v) now).1 =
      match R.findIdx? (fun x => x.postId == id && x.userId == U.id) with
      | some idx =>
        { db with ratings := R.set idx { postId := id, userId := U.id, rating := v, at_ := now } }
      | none =>
        { db with ratings := { postId := id, userId := U.id, rating := v, at_ := now } :: R } :=
  ratePost_fst { db with ratings := R } id v now p U hp hU h1 h5

/-- With at most one Rating per pair, no second Rating of the pair exists around
the first one. -/
theorem ratings_unique_split (a b : List Rating) (x : Rating) (id uid : String)
    (hinv : RatingsUnique (a ++ x :: b))
    (hx : (x.postId == id && x.userId == uid) = true) :
    ∀ y ∈ a ++ b, (y.postId == id && y.userId == uid) = false := by
  intro y hy
  by_contra hne
  have hyq : (y.postId == id && y.userId == uid) = true := by simpa using hne
  simp only [Bool.and_eq_true, beq_iff_eq] at hx hyq
  have hkey : ratingKey y = ratingKey x := by
    simp [ratingKey, hx.1, hx.2, hyq.1, hyq.2]
  unfold RatingsUnique at hinv
  rw [List.map_append, List.map_cons] at hinv
  have hnd := List.nodup_middle.mp hinv
  rw [List.nodup_cons] at hnd
  apply hnd.1
  rw [← List.map_append, ← hkey]
  exact List.mem_map_of_mem ratingKey hy

/-- The first element of the `f`-filtered array that satisfies `g`, when no
earlier element satisfies both. -/
theorem find?_filter_split {α : Type} (f g : α → Bool) (a : List α) (x : α) (b : List α)
    (ha : ∀ y ∈ a, (f y && g y) = false) (hf : f x = true) (hg : g x = true) :
    ((a ++ x :: b).filter f).find? g = some x := by
  induction a with
  | nil => simp [List.filter_cons, hf, hg]
  | cons z zs ih =>
    have hz : (f z && g z) = false := ha z (List.mem_cons_self _ _)
    have hzs : ∀ y ∈ zs, (f y && g y) = false := fun y hy => ha y (List.mem_cons_of_mem _ hy)
    by_cases hfz : f z = true
    · have hgz : g z = false := by simpa [hfz] using hz
      simp only [List.cons_append, List.filter_cons, hfz, if_true, List.find?_cons, hgz]
      exact ih hzs
    · simp only [List.cons_append, List.filter_cons, hfz]
      exact ih hzs

/-- The effect of a valid rate of an existing post by the active user: only the
ratings change, a Rating of the pair exists afterwards, `my_rating` is the new
value, and `rating_count` grows by one exactly when the pair had no Rating. -/
theorem ratePost_effect (db : DB) (P : Post) (U : User) (v : ℚ) (now : Int)
    (hP : P ∈ db.posts) (hU : getMe db = some U) (h1 : 1 ≤ v) (h5 : v ≤ 5) :
    (∃ R, (ratePost db P.id (.num v) now).1 = { db with ratings := R }) ∧
    (ratePost db P.id (.num v) now).1.ratings.any
        (fun x => x.postId == P.id && x.userId == U.id) = true ∧
    (summarizePost (ratePost db P.id (.num v) now).1 P U).my_rating = v ∧
    (summarizePost (ratePost db P.id (.num v) now).1 P U).rating_count =
      (summarizePost db P U).rating_count +
        (if db.ratings.any (fun x => x.postId == P.id && x.userId == U.id) then 0 else 1) := by
  obtain ⟨p, hp, -⟩ := find?_post_of_mem db P hP
  rw [ratePost_fst db P.id v now p U hp hU h1 h5]
  cases hidx : db.ratings.findIdx? (fun x => x.postId == P.id && x.userId == U.id) with
  | none =>
    have hnone := findIdx?_none_forall _ _ hidx
    have hany : db.ratings.any (fun x => x.postId == P.id && x.userId == U.id) = false := by
      rw [Bool.eq_false_iff]
      intro h
      rw [List.any_eq_true] at h
      obtain ⟨y, hy, hyq⟩ := h
      simp [hnone y hy] at hyq
    refine ⟨⟨_, rfl⟩, by simp, ?_, ?_⟩
    · simp [summarizePost_my_rating, List.filter_cons, orZero_eq]
    · simp [hany, List.filter_cons]
  | some idx =>
    obtain ⟨a, x, b, hl, hlen, hx, ha⟩ := findIdx?_some_split _ _ _ hidx
    have hx2 := hx
    simp only [Bool.and_eq_true, beq_iff_eq] at hx2
    have hany : db.ratings.any (fun x => x.postId == P.id && x.userId == U.id) = true := by
      rw [List.any_eq_true]
      exact ⟨x, by simp [hl], hx⟩
    have hset : db.ratings.set idx { postId := P.id, userId := U.id, rating := v, at_ := now } =
        a ++ { postId := P.id, userId := U.id, rating := v, at_ := now } :: b := by
      rw [hl, ← hlen, set_split]
    simp only [hset]
    refine ⟨⟨_, rfl⟩, List.any_eq_true.mpr ⟨_, List.mem_append_right _ (List.mem_cons_self _ _),
      by simp⟩, ?_, ?_⟩
    · rw [summarizePost_my_rating]
      simp only []
      rw [find?_filter_split (fun x => x.postId == P.id) (fun x => x.userId == U.id) a _ b
        ha (by simp) (by simp)]
      simp [orZero_eq]
    · rw [if_pos hany]
      simp only [summarizePost_rating_count, hl]
      simp [List.filter_cons, hx2.1]

theorem seed_ratings_userId (now : Int) (nano : Nat → String) :
    ∀ x ∈ (seedDB now nano).ratings, x.userId = "seed" := by
  intro x hx
  simp only [seedDB, List.mem_map] at hx
  obtain ⟨ip, -, rfl⟩ := hx
  rfl

theorem seed_getMe (now : Int) (nano : Nat → String) :
    getMe (seedDB now nano) = some { id := "u_consumer", name := "Consumer", role := "consumer" } := by
  simp [seedDB, getMe, List.find?]

theorem jsSplitComma_ne_nil (cs : List Char) : jsSplitComma cs ≠ [] := by
  cases cs with
  | nil => simp [jsSplitComma]
  | cons c cs =>
    unfold jsSplitComma
    split_ifs
    · simp
    · split <;> simp

/-- Joining the pieces of `split(",")` with commas gives back the input. -/
theorem intercalate_jsSplitComma (cs : List Char) :
    List.intercalate [','] (jsSplitComma cs) = cs := by
  induction cs with
  | nil => simp [jsSplitComma, List.intercalate]
  | cons c cs ih =>
    obtain ⟨p, ps, hps⟩ := List.exists_cons_of_ne_nil (jsSplitComma_ne_nil cs)
    unfold jsSplitComma
    rw [hps] at ih ⊢
    by_cases hc : c = ','
    · simp only [hc, if_true]
      have : List.intercalate [','] ([] :: p :: ps) = ',' :: List.intercalate [','] (p :: ps) := by
        simp [List.intercalate]
      rw [this, ih]
    · simp only [hc, if_false]
      have : List.intercalate [','] ((c :: p) :: ps) = c :: List.intercalate [','] (p :: ps) := by
        cases ps <;> simp [List.intercalate]
      rw [this, ih]

/-- No piece of `split(",")` contains a comma. -/
theorem jsSplitComma_no_comma (cs : List Char) : ∀ p ∈ jsSplitComma cs, ',' ∉ p := by
  induction cs with
  | nil => simp [jsSplitComma]
  | cons c cs ih =>
    obtain ⟨q, qs, hqs⟩ := List.exists_cons_of_ne_nil (jsSplitComma_ne_nil cs)
    unfold jsSplitComma
    rw [hqs] at ih ⊢
    by_cases hc : c = ','
    · simp only [hc, if_true]
      intro p hp
      rcases List.mem_cons.mp hp with rfl | hp
      · simp
      · exact ih p hp
    · simp only [hc, if_false]
      intro p hp
      rcases List.mem_cons.mp hp with rfl | hp
      · intro hmem
        rcases List.mem_cons.mp hmem with h | h
        · exact hc h.symm
        · exact ih q (List.mem_cons_self _ _) h
      · exact ih p (List.mem_cons_of_mem _ hp)

/-- What `trim()` removes and leaves: the input is the result between two runs
of white space, and the result neither starts nor ends with white space. -/
theorem jsTrimChars_spec (cs : List Char) :
    ∃ l r, cs = l ++ jsTrimChars cs ++ r ∧
      (∀ c ∈ l, isJsSpace c = true) ∧ (∀ c ∈ r, isJsSpace c = true) ∧
      (∀ c, (jsTrimChars cs).head? = some c → isJsSpace c = false) ∧
      (∀ c, (jsTrimChars cs).getLast? = some c → isJsSpace c = false) := by
  have htrim : jsTrimChars cs = (cs.dropWhile isJsSpace).rdropWhile isJsSpace := rfl
  have hsplit : (cs.dropWhile isJsSpace).rdropWhile isJsSpace ++
      (cs.dropWhile isJsSpace).rtakeWhile isJsSpace = cs.dropWhile isJsSpace := by
    unfold List.rdropWhile List.rtakeWhile
    rw [← List.reverse_append, List.takeWhile_append_dropWhile, List.reverse_reverse]
  refine ⟨cs.takeWhile isJsSpace, (cs.dropWhile isJsSpace).rtakeWhile isJsSpace, ?_, ?_, ?_, ?_, ?_⟩
  · rw [htrim, List.append_assoc, hsplit, List.takeWhile_append_dropWhile]
  · intro c hc
    exact List.mem_takeWhile_imp hc
  · intro c hc
    exact List.mem_rtakeWhile_imp hc
  · intro c hc
    rw [htrim] at hc
    have hhead : (cs.dropWhile isJsSpace).head? = some c := by
      rw [← hsplit]
      cases hd : (cs.dropWhile isJsSpace).rdropWhile isJsSpace with
      | nil => rw [hd] at hc; simp at hc
      | cons z zs =>
        rw [hd] at hc
        simpa using hc
    have := List.head?_dropWhile_not isJsSpace cs
    rw [hhead] at this
    exact this
  · intro c hc
    rw [htrim] at hc
    have hne : (cs.dropWhile isJsSpace).rdropWhile isJsSpace ≠ [] := by
      intro h
      rw [h] at hc
      simp at hc
    have hlast := List.rdropWhile_last_not isJsSpace (cs.dropWhile isJsSpace) hne
    rw [List.getLast?_eq_getLast _ hne] at hc
    simp only [Option.some.injEq] at hc
    rw [hc] at hlast
    simpa using hlast

/-- The test of the rate handler accepts exactly the valid ratings. -/
theorem rejected_eq_false_iff (r : JsNum) :
    (!r.isFinite || r.ltLit 1 || r.gtLit 5) = false ↔ ValidRating r := by
  cases r with
  | num q =>
    simp only [JsNum.isFinite, JsNum.ltLit, JsNum.gtLit, ValidRating]
    constructor
    · intro h
      simp only [Bool.not_true, Bool.false_or, Bool.or_eq_false_iff, decide_eq_false_iff_not,
        not_lt, gt_iff_lt] at h
      exact ⟨q, rfl, h.1, h.2⟩
    · rintro ⟨q', hq, h1, h5⟩
      cases hq
      simp [h1, h5]
  | nan => simp [JsNum.isFinite, ValidRating]
  | posInf => simp [JsNum.isFinite, ValidRating]
  | negInf => simp [JsNum.isFinite, ValidRating]

/-- The outcomes of the rate handler on the ratings: unchanged, or one Rating
with a value within `[1,5]` put in front or in place of an old one. -/
theorem ratePost_ratings_cases (db : DB) (id : String) (r : JsNum) (now : Int) :
    (ratePost db id r now).1 = db ∨
    ∃ (me : User) (q : ℚ), r = .num q ∧ 1 ≤ q ∧ q ≤ 5 ∧ getMe db = some me ∧
      ((db.ratings.findIdx? (fun x => x.postId == id && x.userId == me.id) = none ∧
        (ratePost db id r now).1 = { db with ratings :=
          { postId := id, userId := me.id, rating := q, at_ := now } :: db.ratings }) ∨
       (∃ idx, db.ratings.findIdx? (fun x => x.postId == id && x.userId == me.id) = some idx ∧
        (ratePost db id r now).1 = { db with ratings :=
          (db.ratings.set idx { postId := id, userId := me.id, rating := q, at_ := now }) })) := by
  cases hp : db.posts.find? (fun x => x.id == id) with
  | none => left; simp [ratePost, hp]
  | some p =>
    by_cases hv : ValidRating r
    · obtain ⟨q, rfl, h1, h5⟩ := hv
      cases hme : getMe db with
      | none =>
        left
        have hb := (rejected_eq_false_iff (.num q)).mpr ⟨q, rfl, h1, h5⟩
        simp only [ratePost, hp, hme, hb]
        rfl
      | some me =>
        right
        refine ⟨me, q, rfl, h1, h5, rfl, ?_⟩
        rw [ratePost_fst db id q now p me hp hme h1 h5]
        cases hidx : db.ratings.findIdx? (fun x => x.postId == id && x.userId == me.id) with
        | none => left; exact ⟨rfl, rfl⟩
        | some idx => right; exact ⟨idx, rfl, rfl⟩
    · left
      have hb : (!r.isFinite || r.ltLit 1 || r.gtLit 5) = true := by
        by_contra hne
        exact hv ((rejected_eq_false_iff r).mp (by simpa using hne))
      simp [ratePost, hp, hb]

/-- The keys of the seeded ratings are the first eight generated ids, each
paired with the user id `"seed"`. -/
theorem seed_rating_keys (now : Int) (nano : Nat → String) :
    (seedDB now nano).ratings.map ratingKey =
      ((List.range 8).map nano).map (fun s => (s, "seed")) := by
  simp [seedDB, seedPosts, seedPostData, List.enum, List.enumFrom, ratingKey, List.range,
    List.range.loop]

theorem seed_pairsUnique (now : Int) (nano : Nat → String) (h : FreshIds nano) :
    PairsUnique (seedDB now nano) := by
  refine ⟨?_, ?_⟩
  · show ([] : List Like).map likeKey |>.Nodup
    simp
  · unfold RatingsUnique
    rw [seed_rating_keys]
    apply List.Nodup.map
    · intro a b hab
      simpa using hab
    · unfold FreshIds at h
      exact h.sublist ((List.range_sublist.mpr (by norm_num)).map nano)

theorem toggleLike_pairsUnique (db : DB) (id : String) (now : Int) (h : PairsUnique db) :
    PairsUnique (toggleLike db id now).1 := by
  unfold toggleLike
  cases hp : db.posts.find? (fun x => x.id == id) with
  | none => exact h
  | some p =>
    cases hme : getMe db with
    | none => exact h
    | some me =>
      simp only []
      cases hidx : db.likes.findIdx? (fun x => x.postId == id && x.userId == me.id) with
      | some idx =>
        refine ⟨?_, h.2⟩
        exact List.Nodup.sublist ((List.eraseIdx_sublist db.likes idx).map likeKey) h.1
      | none =>
        refine ⟨?_, h.2⟩
        have hnone := findIdx?_none_forall _ _ hidx
        show (likeKey { postId := id, userId := me.id, at_ := now } :: db.likes.map likeKey).Nodup
        rw [List.nodup_cons]
        refine ⟨?_, h.1⟩
        intro hmem
        obtain ⟨y, hy, hkey⟩ := List.mem_map.mp hmem
        have := hnone y hy
        simp only [likeKey, Prod.mk.injEq] at hkey
        simp [hkey.1, hkey.2] at this

theorem ratePost_pairsUnique (db : DB) (id : String) (r : JsNum) (now : Int)
    (h : PairsUnique db) : PairsUnique (ratePost db id r now).1 := by
  rcases ratePost_ratings_cases db id r now with h0 | ⟨me, q, -, -, -, -, h0 | ⟨idx, hidx, h0⟩⟩
  · rw [h0]; exact h
  · rw [h0.2]
    refine ⟨h.1, ?_⟩
    have hnone := findIdx?_none_forall _ _ h0.1
    show (ratingKey { postId := id, userId := me.id, rating := q, at_ := now } ::
      db.ratings.map ratingKey).Nodup
    rw [List.nodup_cons]
    refine ⟨?_, h.2⟩
    intro hmem
    obtain ⟨y, hy, hkey⟩ := List.mem_map.mp hmem
    have := hnone y hy
    simp only [ratingKey, Prod.mk.injEq] at hkey
    simp [hkey.1, hkey.2] at this
  · rw [h0]
    refine ⟨h.1, ?_⟩
    obtain ⟨a, x, b, hl, hlen, hx, -⟩ := findIdx?_some_split _ _ _ hidx
    simp only [Bool.and_eq_true, beq_iff_eq] at hx
    have hkeys : (db.ratings.set idx { postId := id, userId := me.id, rating := q, at_ := now }).map
        ratingKey = db.ratings.map ratingKey := by
      rw [hl, ← hlen, set_split]
      simp [ratingKey, hx.1, hx.2]
    show ((db.ratings.set idx _).map ratingKey).Nodup
    rw [hkeys]
    exact h.2

theorem deletePost_pairsUnique (db : DB) (id : String) (h : PairsUnique db) :
    PairsUnique (deletePost db id).1 := by
  unfold deletePost
  cases hme : getMe db with
  | none => exact h
  | some me =>
    simp only []
    split_ifs
    · exact h
    · exact ⟨List.Nodup.sublist ((List.filter_sublist _).map likeKey) h.1,
        List.Nodup.sublist ((List.filter_sublist _).map ratingKey) h.2⟩

/-- The handlers that write neither likes nor ratings keep both collections. -/
theorem step_other_keeps (db : DB) (op : Op) :
    (∃ id now, op = .toggleLike id now) ∨ (∃ id r now, op = .ratePost id r now) ∨
    (∃ id, op = .deletePost id) ∨ (∃ now nano, op = .adminReset now nano) ∨
    ((step db op).1.likes = db.likes ∧ (step db op).1.ratings = db.ratings) := by
  cases op with
  | toggleLike id now => exact Or.inl ⟨id, now, rfl⟩
  | ratePost id r now => exact Or.inr (Or.inl ⟨id, r, now, rfl⟩)
  | deletePost id => exact Or.inr (Or.inr (Or.inl ⟨id, rfl⟩))
  | adminReset now nano => exact Or.inr (Or.inr (Or.inr (Or.inl ⟨now, nano, rfl⟩)))
  | authSwitch userId =>
    refine Or.inr (Or.inr (Or.inr (Or.inr ?_)))
    simp only [step, authSwitch]
    split
    · exact ⟨rfl, rfl⟩
    · split_ifs
      · exact ⟨rfl, rfl⟩
      · split <;> exact ⟨rfl, rfl⟩
  | authUpdate name role =>
    refine Or.inr (Or.inr (Or.inr (Or.inr ?_)))
    simp only [step, authUpdate]
    split_ifs
    · exact ⟨rfl, rfl⟩
    · exact ⟨rfl, rfl⟩
    · split
      · exact ⟨rfl, rfl⟩
      · split <;> exact ⟨rfl, rfl⟩
  | createUser name role newId =>
    refine Or.inr (Or.inr (Or.inr (Or.inr ?_)))
    simp only [step, createUser]
    split
    · exact ⟨rfl, rfl⟩
    · split_ifs <;> exact ⟨rfl, rfl⟩
  | deleteUser id =>
    refine Or.inr (Or.inr (Or.inr (Or.inr ?_)))
    simp only [step, deleteUser]
    split
    · exact ⟨rfl, rfl⟩
    · split_ifs <;> exact ⟨rfl, rfl⟩
  | createPost file title caption location people tags imageUrl newId now =>
    refine Or.inr (Or.inr (Or.inr (Or.inr ?_)))
    simp only [step, createPost]
    split
    · exact ⟨rfl, rfl⟩
    · split_ifs <;> exact ⟨rfl, rfl⟩
  | addComment id text newId now =>
    refine Or.inr (Or.inr (Or.inr (Or.inr ?_)))
    simp only [step, addComment]
    split
    · exact ⟨rfl, rfl⟩
    · split_ifs
      · exact ⟨rfl, rfl⟩
      · split <;> exact ⟨rfl, rfl⟩
  | toggleStatus id =>
    refine Or.inr (Or.inr (Or.inr (Or.inr ?_)))
    simp only [step, toggleStatus]
    split
    · exact ⟨rfl, rfl⟩
    · split_ifs
      · exact ⟨rfl, rfl⟩
      · split <;> exact ⟨rfl, rfl⟩

theorem step_pairsUnique (db : DB) (op : Op) (henv : op.EnvOk) (h : PairsUnique db) :
    PairsUnique (step db op).1 := by
  rcases step_other_keeps db op with ⟨id, now, rfl⟩ | ⟨id, r, now, rfl⟩ | ⟨id, rfl⟩ |
    ⟨now, nano, rfl⟩ | ⟨hl, hr⟩
  · exact toggleLike_pairsUnique db id now h
  · exact ratePost_pairsUnique db id r now h
  · exact deletePost_pairsUnique db id h
  · exact seed_pairsUnique now nano henv
  · unfold PairsUnique
    rw [hl, hr]
    exact h

theorem commentLe_trans (a b c : Comment) :
    commentLe a b = true → commentLe b c = true → commentLe a c = true := by
  simp only [commentLe, commentCmp, decide_eq_true_eq]
  intro h1 h2
  omega

theorem commentLe_total (a b : Comment) : (commentLe a b || commentLe b a) = true := by
  simp only [commentLe, commentCmp, Bool.or_eq_true, decide_eq_true_eq]
  omega

/-- The comment sort is a permutation that is ordered by `at` descending and
keeps, for every timestamp, the comments of that timestamp in their order. -/
theorem comment_sort_spec (cs : List Comment) :
    (cs.mergeSort commentLe).Perm cs ∧
    (cs.mergeSort commentLe).Pairwise (fun a b => b.at_ ≤ a.at_) ∧
    (∀ t : Int, (cs.mergeSort commentLe).filter (fun c => c.at_ == t) =
      cs.filter (fun c => c.at_ == t)) := by
  have hperm := List.mergeSort_perm cs commentLe
  refine ⟨hperm, ?_, ?_⟩
  · have hs := List.sorted_mergeSort commentLe_trans commentLe_total cs
    refine hs.imp ?_
    intro a b hab
    simp only [commentLe, commentCmp, decide_eq_true_eq] at hab
    omega
  · intro t
    have hpw : (cs.filter (fun c => c.at_ == t)).Pairwise (fun a b => commentLe a b = true) := by
      rw [List.pairwise_iff_forall_sublist]
      intro a b hab
      have ha : a ∈ cs.filter (fun c => c.at_ == t) := hab.subset (by simp)
      have hb : b ∈ cs.filter (fun c => c.at_ == t) := hab.subset (by simp)
      have ha' := (List.mem_filter.mp ha).2
      have hb' := (List.mem_filter.mp hb).2
      simp only [beq_iff_eq] at ha' hb'
      simp [commentLe, commentCmp, ha', hb']
    have hsub : List.Sublist (cs.filter (fun c => c.at_ == t)) (cs.mergeSort commentLe) :=
      List.sublist_mergeSort commentLe_trans commentLe_total hpw (List.filter_sublist _)
    have hsub' : List.Sublist (cs.filter (fun c => c.at_ == t))
        ((cs.mergeSort commentLe).filter (fun c => c.at_ == t)) := by
      have := hsub.filter (fun c => c.at_ == t)
      simpa only [List.filter_filter, Bool.and_self] using this
    have hlen : ((cs.mergeSort commentLe).filter (fun c => c.at_ == t)).length =
        (cs.filter (fun c => c.at_ == t)).length := (hperm.filter _).length_eq
    exact (hsub'.eq_of_length hlen.symm).symm

theorem updateFirst_map_id (pred : User → Bool) (f : User → User)
    (hf : ∀ u, (f u).id = u.id) (l : List User) :
    (updateFirst pred f l).map User.id = l.map User.id := by
  induction l with
  | nil => rfl
  | cons x xs ih =>
    unfold updateFirst
    split_ifs
    · simp [hf]
    · simp [ih]

theorem toggleLike_users (db : DB) (id : String) (now : Int) :
    (toggleLike db id now).1.users = db.users ∧
    (toggleLike db id now).1.activeUserId = db.activeUserId := by
  unfold toggleLike
  split
  · exact ⟨rfl, rfl⟩
  · split
    · exact ⟨rfl, rfl⟩
    · simp only []
      split <;> exact ⟨rfl, rfl⟩

theorem ratePost_users (db : DB) (id : String) (r : JsNum) (now : Int) :
    (ratePost db id r now).1.users = db.users ∧
    (ratePost db id r now).1.activeUserId = db.activeUserId := by
  rcases ratePost_ratings_cases db id r now with h | ⟨me, q, -, -, -, -, h | ⟨idx, -, h⟩⟩
  · rw [h]; exact ⟨rfl, rfl⟩
  · rw [h.2]; exact ⟨rfl, rfl⟩
  · rw [h]; exact ⟨rfl, rfl⟩

/-- Every handler keeps a user with the reserved id `"u_admin"`. -/
theorem step_hasSeedAdmin (db : DB) (op : Op) (h : HasSeedAdmin db) :
    HasSeedAdmin (step db op).1 := by
  unfold HasSeedAdmin at h ⊢
  cases op with
  | toggleLike id now => simp only [step]; rw [(toggleLike_users db id now).1]; exact h
  | ratePost id r now => simp only [step]; rw [(ratePost_users db id r now).1]; exact h
  | adminReset now nano => simp [step, adminReset, seedDB]
  | authSwitch userId =>
    simp only [step, authSwitch]
    split
    · exact h
    · split_ifs
      · exact h
      · split <;> exact h
  | authUpdate name role =>
    simp only [step, authUpdate]
    split_ifs
    · exact h
    · exact h
    · split
      · simp only []
        rw [updateFirst_map_id]
        · exact h
        · intro u; rfl
      · split
        · exact h
        · next u us hus =>
          rw [hus] at h
          simpa using h
  | createUser name role newId =>
    simp only [step, createUser]
    split
    · exact h
    · split_ifs
      · exact h
      · exact h
      · exact h
      · simp only [List.map_cons, List.mem_cons]
        exact Or.inr h
  | deleteUser id =>
    simp only [step, deleteUser]
    split
    · exact h
    · split_ifs with h1 h2
      · exact h
      · exact h
      all_goals
        obtain ⟨u, hu, hid⟩ := List.mem_map.mp h
        refine List.mem_map.mpr ⟨u, List.mem_filter.mpr ⟨hu, ?_⟩, hid⟩
        have hne : ¬ id = "u_admin" := by simpa using h2
        simp only [bne_iff_ne, ne_eq, hid]
        exact fun heq => hne heq.symm
  | createPost file title caption location people tags imageUrl newId now =>
    simp only [step, createPost]
    split
    · exact h
    · split_ifs <;> exact h
  | addComment id text newId now =>
    simp only [step, addComment]
    split
    · exact h
    · split_ifs
      · exact h
      · split <;> exact h
  | toggleStatus id =>
    simp only [step, toggleStatus]
    split
    · exact h
    · split_ifs
      · exact h
      · split <;> exact h
  | deletePost id =>
    simp only [step, deletePost]
    split
    · exact h
    · split_ifs <;> exact h

theorem reachable_hasSeedAdmin (db : DB) (h : Reachable db) : HasSeedAdmin db := by
  induction h with
  | seed now nano _ => simp [HasSeedAdmin, seedDB]
  | step db op _ _ ih => exact step_hasSeedAdmin db op ih

/-- With a user in the collection, `getMe` returns one of the users. -/
theorem getMe_of_ne_nil (db : DB) (h : db.users ≠ []) : ∃ u, getMe db = some u ∧ u ∈ db.users := by
  unfold getMe
  cases hf : db.users.find? (fun u => u.id == db.activeUserId) with
  | some u => exact ⟨u, rfl, List.mem_of_find?_eq_some hf⟩
  | none =>
    obtain ⟨u, us, hus⟩ := List.exists_cons_of_ne_nil h
    exact ⟨u, by simp [hus], by simp [hus]⟩

/-- Filtering out the records of `d` does not change the records of `q ≠ d`. -/
theorem filter_other_post {α : Type} (f : α → String) (l : List α) (q d : String)
    (h : q ≠ d) :
    (l.filter (fun x => f x != d)).filter (fun x => f x == q) = l.filter (fun x => f x == q) := by
  rw [List.filter_filter]
  apply List.filter_congr
  intro x _
  by_cases hx : f x = q
  · simp [hx, h]
  · simp [hx]

theorem find?_post_none (db : DB) (id : String) (h : ∀ p ∈ db.posts, p.id ≠ id) :
    db.posts.find? (fun x => x.id == id) = none := by
  rw [List.find?_eq_none]
  intro p hp
  simpa using h p hp

theorem deletePost_admin (db : DB) (id : String) (me : User) (hme : getMe db = some me)
    (hrole : me.role = "admin") :
    deletePost db id =
      ({ db with
          posts := db.posts.filter (fun p => p.id != id)
          likes := db.likes.filter (fun x => x.postId != id)
          ratings := db.ratings.filter (fun x => x.postId != id)
          comments := db.comments.filter (fun x => x.postId != id) },
        .json 200 .ok) := by
  simp [deletePost, hme, hrole]

/-- A delete-post that answers `ok` was run by an admin. -/
theorem deletePost_ok_admin (db : DB) (id : String)
    (hok : (deletePost db id).2 = .json 200 .ok) :
    ∃ me, getMe db = some me ∧ me.role = "admin" := by
  unfold deletePost at hok
  cases hme : getMe db with
  | none => simp [hme] at hok
  | some me =>
    refine ⟨me, rfl, ?_⟩
    by_contra hrole
    have : (me.role != "admin") = true := by simpa using hrole
    simp [hme, this] at hok

theorem saveCosmos_eq_foldl (s : List Item) (db : DB) :
    saveCosmos s db = (saveItems db).foldl upsert s := by
  simp only [saveCosmos, saveItems, List.foldl_cons, List.foldl_append, List.foldl_map]

theorem keys_upsert (s : List Item) (it : Item) :
    (upsert s it).map Item.key =
      if it.key ∈ s.map Item.key then s.map Item.key else s.map Item.key ++ [it.key] := by
  induction s with
  | nil => simp [upsert]
  | cons x xs ih =>
    unfold upsert
    by_cases hx : x.key = it.key
    · simp [hx]
    · have hx' : ¬ it.key = x.key := fun h => hx h.symm
      simp only [hx, if_false, List.map_cons, ih, List.mem_cons, hx', false_or]
      split_ifs <;> simp

theorem lookup_upsert (s : List Item) (it : Item) (k : String × String) :
    lookup (upsert s it) k = if it.key = k then some it else lookup s k := by
  induction s with
  | nil =>
    unfold lookup upsert
    by_cases hk : it.key = k <;> simp [hk]
  | cons x xs ih =>
    unfold lookup at ih ⊢
    unfold upsert
    by_cases hx : x.key = it.key
    · by_cases hk : it.key = k
      · simp [hx, hk]
      · have hxk : ¬ x.key = k := by rw [hx]; exact hk
        simp [hx, hk]
    · by_cases hxk : x.key = k
      · have hk : ¬ it.key = k := by
          intro h
          exact hx (hxk.trans h.symm)
        have hk' : ¬ k = it.key := fun h => hk h.symm
        simp [hxk, hk, hk']
      · simp only [hx, if_false, List.find?_cons, hxk, decide_False]
        exact ih

theorem keysUnique_upsert (s : List Item) (it : Item) (h : KeysUnique s) :
    KeysUnique (upsert s it) := by
  unfold KeysUnique at h ⊢
  rw [keys_upsert]
  split_ifs with hmem
  · exact h
  · rw [List.nodup_append]
    refine ⟨h, List.nodup_singleton _, ?_⟩
    intro a ha hb
    rw [List.mem_singleton] at hb
    exact hmem (hb ▸ ha)

theorem keysUnique_foldl (l : List Item) :
    ∀ s : List Item, KeysUnique s → KeysUnique (l.foldl upsert s) := by
  induction l with
  | nil => intro s h; exact h
  | cons x xs ih => intro s h; exact ih _ (keysUnique_upsert s x h)

theorem key_mem_upsert (s : List Item) (it : Item) (k : String × String)
    (h : k ∈ s.map Item.key ∨ k = it.key) : k ∈ (upsert s it).map Item.key := by
  rw [keys_upsert]
  split_ifs with hmem
  · rcases h with h | h
    · exact h
    · exact h ▸ hmem
  · rcases h with h | h
    · exact List.mem_append_left _ h
    · exact List.mem_append_right _ (by simp [h])

theorem key_mem_foldl (l : List Item) :
    ∀ (s : List Item) (k : String × String),
      (k ∈ s.map Item.key ∨ k ∈ l.map Item.key) → k ∈ (l.foldl upsert s).map Item.key := by
  induction l with
  | nil =>
    intro s k h
    rcases h with h | h
    · exact h
    · simp at h
  | cons x xs ih =>
    intro s k h
    simp only [List.foldl_cons]
    apply ih
    rcases h with h | h
    · exact Or.inl (key_mem_upsert s x k (Or.inl h))
    · rcases List.mem_cons.mp h with h | h
      · exact Or.inl (key_mem_upsert s x k (Or.inr h))
      · exact Or.inr h

theorem keys_foldl_of_present (l : List Item) :
    ∀ s : List Item, (∀ it ∈ l, it.key ∈ s.map Item.key) →
      (l.foldl upsert s).map Item.key = s.map Item.key := by
  induction l with
  | nil => intro s _; rfl
  | cons x xs ih =>
    intro s h
    have hx : x.key ∈ s.map Item.key := h x (List.mem_cons_self _ _)
    have hkeys : (upsert s x).map Item.key = s.map Item.key := by
      rw [keys_upsert, if_pos hx]
    simp only [List.foldl_cons]
    rw [ih (upsert s x), hkeys]
    intro it hit
    rw [hkeys]
    exact h it (List.mem_cons_of_mem _ hit)

theorem lookup_foldl (l : List Item) (k : String × String) :
    ∀ s : List Item, lookup (l.foldl upsert s) k = lastWrite k (lookup s k) l := by
  induction l with
  | nil => intro s; rfl
  | cons x xs ih =>
    intro s
    simp only [List.foldl_cons, lastWrite]
    rw [ih (upsert s x), lookup_upsert]
    rfl

/-- A batch either writes nothing under `k` or fixes what is stored under `k`. -/
theorem lastWrite_cases (k : String × String) (l : List Item) :
    ∀ a : Option Item, lastWrite k a l = a ∨ ∀ b, lastWrite k b l = lastWrite k a l := by
  induction l with
  | nil => intro a; exact Or.inl rfl
  | cons x xs ih =>
    intro a
    by_cases hx : x.key = k
    · right
      intro b
      simp [lastWrite, hx]
    · rcases ih a with h | h
      · left
        simpa [lastWrite, hx] using h
      · right
        intro b
        simpa [lastWrite, hx] using h b

theorem lastWrite_idem (k : String × String) (l : List Item) (a : Option Item) :
    lastWrite k (lastWrite k a l) l = lastWrite k a l := by
  rcases lastWrite_cases k l a with h | h
  · rw [h, h]
  · exact h _

/-- Two containers with the same keys in the same order, pairwise different,
and the same item under every key are equal. -/
theorem store_ext :
    ∀ s1 s2 : List Item, s1.map Item.key = s2.map Item.key → KeysUnique s1 →
      (∀ k, lookup s1 k = lookup s2 k) → s1 = s2 := by
  intro s1
  induction s1 with
  | nil =>
    intro s2 hk _ _
    cases s2 with
    | nil => rfl
    | cons y ys => simp at hk
  | cons x xs ih =>
    intro s2 hk hnd hl
    cases s2 with
    | nil => simp at hk
    | cons y ys =>
      simp only [List.map_cons, List.cons.injEq] at hk
      obtain ⟨hxy, htl⟩ := hk
      unfold KeysUnique at hnd
      rw [List.map_cons, List.nodup_cons] at hnd
      have hhead : x = y := by
        have := hl x.key
        simp [lookup, hxy] at this
        exact this
      subst hhead
      congr 1
      apply ih ys htl hnd.2
      intro k
      by_cases hkx : x.key = k
      · have h1 : lookup xs k = none := by
          unfold lookup
          rw [List.find?_eq_none]
          intro z hz hzk
          apply hnd.1
          have : z.key = k := by simpa using hzk
          rw [hkx, ← this]
          exact List.mem_map_of_mem _ hz
        have h2 : lookup ys k = none := by
          unfold lookup
          rw [List.find?_eq_none]
          intro z hz hzk
          apply hnd.1
          have : z.key = k := by simpa using hzk
          rw [hkx, ← this, htl]
          exact List.mem_map_of_mem _ hz
        rw [h1, h2]
      · have := hl k
        simpa [lookup, hkx] using this

/-- Running the same batch of upserts a second time changes nothing. -/
theorem foldl_upsert_idem (l s : List Item) (h : KeysUnique s) :
    l.foldl upsert (l.foldl upsert s) = l.foldl upsert s := by
  apply store_ext
  · apply keys_foldl_of_present
    intro it hit
    exact key_mem_foldl l s it.key (Or.inr (List.mem_map_of_mem _ hit))
  · exact keysUnique_foldl l _ (keysUnique_foldl l s h)
  · intro k
    rw [lookup_foldl, lookup_foldl, lastWrite_idem]

/-! ## Theorems -/

/-- C1 (as stated, refuted): after the consumer has rated the first seeded post
with 5, its Ratings are 5 and the seeded 4.8; `rating_avg` is the double 4.9,
which is not the sum of the two stored values divided by 2. -/
theorem rating_avg_counterexample :
    ((ratePost (seedDB 0 sampleNano) "n0" (.num 5) 1).1.ratings.filter
        (fun x => x.postId == "n0")).map Rating.rating = [5, dbl 4.8] ∧
    (summarizePost (ratePost (seedDB 0 sampleNano) "n0" (.num 5) 1).1
        { samplePost with id := "n0" } sampleConsumer).rating_avg = .num (dbl 4.9) ∧
    (summarizePost (ratePost (seedDB 0 sampleNano) "n0" (.num 5) 1).1
        { samplePost with id := "n0" } sampleConsumer).rating_avg ≠
      .num ((((ratePost (seedDB 0 sampleNano) "n0" (.num 5) 1).1.ratings.filter
          (fun x => x.postId == "n0")).map Rating.rating).sum /
        (((ratePost (seedDB 0 sampleNano) "n0" (.num 5) 1).1.ratings.filter
          (fun x => x.postId == "n0")).length : ℚ)) := by
  refine ⟨by decide!, by decide!, by decide!⟩

/-- C1 (amended): `summarizePost(P, viewer).rating_avg` is exactly `0` when no
Rating references `P`; otherwise it is the double-precision sum of the rating
values of the Ratings of `P`, added left to right from `0`, divided in double
precision by their number; and it is the exact sum divided by the number
whenever every partial sum and the quotient are doubles. -/
theorem summarizePost_rating_avg (db : DB) (p : Post) (me : User) :
    (summarizePost db p me).rating_avg =
      (if (db.ratings.filter (fun x => x.postId == p.id)).length = 0 then .num 0
       else (doubleSum ((db.ratings.filter (fun x => x.postId == p.id)).map Rating.rating)).divNat
              (db.ratings.filter (fun x => x.postId == p.id)).length) ∧
    ((db.ratings.filter (fun x => x.postId == p.id)).length ≠ 0 →
      (∀ s ∈ List.scanl (fun x y => x + y) 0
          ((db.ratings.filter (fun x => x.postId == p.id)).map Rating.rating), IsDouble s) →
      IsDouble (((db.ratings.filter (fun x => x.postId == p.id)).map Rating.rating).sum /
        ((db.ratings.filter (fun x => x.postId == p.id)).length : ℚ)) →
      (summarizePost db p me).rating_avg =
        .num (((db.ratings.filter (fun x => x.postId == p.id)).map Rating.rating).sum /
          ((db.ratings.filter (fun x => x.postId == p.id)).length : ℚ))) := by
  have hdef : (summarizePost db p me).rating_avg =
      (if (db.ratings.filter (fun x => x.postId == p.id)).length = 0 then .num 0
       else (doubleSum ((db.ratings.filter (fun x => x.postId == p.id)).map Rating.rating)).divNat
              (db.ratings.filter (fun x => x.postId == p.id)).length) := by
    simp only [summarizePost, doubleSum]
    by_cases h : (db.ratings.filter (fun x => x.postId == p.id)).length = 0
    · simp [h]
    · simp only [ne_eq, h, not_false_eq_true, if_true, if_false]
      rw [foldl_orZero_eq_doubleSum]
  refine ⟨hdef, ?_⟩
  intro hne hpart hquot
  rw [hdef, if_neg hne]
  unfold doubleSum
  rw [foldl_add_exact _ 0 hpart, zero_add]
  obtain ⟨n, hn⟩ := Nat.exists_eq_succ_of_ne_zero hne
  rw [hn] at hquot ⊢
  exact hquot

theorem summarizePost_rating_avg_witness :
    (summarizePost sampleDB samplePost sampleConsumer).rating_avg = .num 3 := by
  have h := (summarizePost_rating_avg sampleDB samplePost sampleConsumer).2
    (by decide) (by decide!) (by decide!)
  rw [h]
  decide!

/-- C2: with at most one Like per `(post, user)` pair, toggling the like of an
existing post `P` twice in succession as the active user `U` gives back the
`liked_by_me` and `like_count` that `summarizePost(P, U)` had before, the
intermediate state having the opposite `liked_by_me`. -/
theorem toggleLike_twice_restores (db : DB) (P : Post) (U : User) (now1 now2 : Int)
    (hinv : LikesUnique db.likes) (hP : P ∈ db.posts) (hU : getMe db = some U) :
    (summarizePost (toggleLike (toggleLike db P.id now1).1 P.id now2).1 P U).liked_by_me =
        (summarizePost db P U).liked_by_me ∧
    (summarizePost (toggleLike (toggleLike db P.id now1).1 P.id now2).1 P U).like_count =
        (summarizePost db P U).like_count ∧
    (summarizePost (toggleLike db P.id now1).1 P U).liked_by_me =
        !(summarizePost db P U).liked_by_me := by
  obtain ⟨p, hp, -⟩ := find?_post_of_mem db P hP
  rw [toggleLike_fst db P.id now1 p U hp hU]
  cases hidx : db.likes.findIdx? (fun x => x.postId == P.id && x.userId == U.id) with
  | none =>
    have hnone := findIdx?_none_forall _ _ hidx
    simp only []
    rw [toggleLike_fst_likes db _ P.id now2 p U hp hU]
    have hany : (db.likes.filter (fun x => x.postId == P.id)).any (fun x => x.userId == U.id)
        = false := by
      rw [Bool.eq_false_iff]
      intro h
      rw [List.any_eq_true] at h
      obtain ⟨y, hy, hyu⟩ := h
      rw [List.mem_filter] at hy
      have := hnone y hy.1
      simp [hy.2, hyu] at this
    simp [List.findIdx?_cons, hany]
  | some idx =>
    obtain ⟨a, x, b, hl, hlen, hx, -⟩ := findIdx?_some_split _ _ _ hidx
    have hrest := likes_unique_split a b x P.id U.id (hl ▸ hinv) hx
    have herase : db.likes.eraseIdx idx = a ++ b := by
      rw [hl, ← hlen, eraseIdx_split]
    simp only []
    rw [toggleLike_fst_likes db _ P.id now2 p U hp hU]
    simp only [herase]
    have hnone : (a ++ b).findIdx? (fun x => x.postId == P.id && x.userId == U.id) = none := by
      rw [List.findIdx?_eq_none_iff]
      intro y hy
      simp [hrest y hy]
    rw [hnone]
    have hx2 := hx
    simp only [Bool.and_eq_true, beq_iff_eq] at hx2
    have hany1 : (db.likes.filter (fun x => x.postId == P.id)).any (fun x => x.userId == U.id)
        = true := by
      rw [List.any_eq_true]
      exact ⟨x, by rw [List.mem_filter, hl]; simp [hx2.1], by simp [hx2.2]⟩
    have hany2 : ((a ++ b).filter (fun x => x.postId == P.id)).any (fun x => x.userId == U.id)
        = false := by
      rw [Bool.eq_false_iff]
      intro h
      rw [List.any_eq_true] at h
      obtain ⟨y, hy, hyu⟩ := h
      rw [List.mem_filter] at hy
      have := hrest y hy.1
      simp [hy.2, hyu] at this
    refine ⟨?_, ?_, ?_⟩
    · simp [hany1]
    · simp only [summarizePost_like_count, hl]
      simp [List.filter_cons, hx2.1]
      omega
    · simp only [summarizePost_liked_by_me, hany1, hany2, Bool.not_true]

theorem toggleLike_twice_restores_witness :
    (summarizePost (toggleLike (toggleLike sampleDB samplePost.id 10).1 samplePost.id 11).1
        samplePost sampleConsumer).liked_by_me =
        (summarizePost sampleDB samplePost sampleConsumer).liked_by_me ∧
    (summarizePost (toggleLike (toggleLike sampleDB samplePost.id 10).1 samplePost.id 11).1
        samplePost sampleConsumer).like_count =
        (summarizePost sampleDB samplePost sampleConsumer).like_count ∧
    (summarizePost (toggleLike sampleDB samplePost.id 10).1 samplePost sampleConsumer).liked_by_me =
        !(summarizePost sampleDB samplePost sampleConsumer).liked_by_me :=
  toggleLike_twice_restores sampleDB samplePost sampleConsumer 10 11
    (by decide) (by decide) (by decide)

/-- C3: with at most one Rating per `(post, user)` pair, rating an existing post
`P` as the active user `U` with a valid `v1` and then with a valid `v2` leaves
exactly one Rating with `postId = P.id` and `userId = U.id`, the one written by
the second call, whose rating is `v2`. -/
theorem ratePost_twice_single (db : DB) (P : Post) (U : User) (v1 v2 : ℚ) (now1 now2 : Int)
    (hinv : RatingsUnique db.ratings) (hP : P ∈ db.posts) (hU : getMe db = some U)
    (h1 : 1 ≤ v1 ∧ v1 ≤ 5) (h2 : 1 ≤ v2 ∧ v2 ≤ 5) :
    (ratePost (ratePost db P.id (.num v1) now1).1 P.id (.num v2) now2).1.ratings.filter
        (fun x => x.postId == P.id && x.userId == U.id) =
      [{ postId := P.id, userId := U.id, rating := v2, at_ := now2 }] := by
  obtain ⟨p, hp, -⟩ := find?_post_of_mem db P hP
  rw [ratePost_fst db P.id v1 now1 p U hp hU h1.1 h1.2]
  cases hidx : db.ratings.findIdx? (fun x => x.postId == P.id && x.userId == U.id) with
  | none =>
    have hnone := findIdx?_none_forall _ _ hidx
    simp only []
    rw [ratePost_fst_ratings db _ P.id v2 now2 p U hp hU h2.1 h2.2]
    simp [List.findIdx?_cons, List.filter_cons, filter_eq_nil_of_forall _ _ hnone]
  | some idx =>
    obtain ⟨a, x, b, hl, hlen, hx, ha⟩ := findIdx?_some_split _ _ _ hidx
    have hrest := ratings_unique_split a b x P.id U.id (hl ▸ hinv) hx
    have ha' : ∀ y ∈ a, (y.postId == P.id && y.userId == U.id) = false := ha
    have hb' : ∀ y ∈ b, (y.postId == P.id && y.userId == U.id) = false :=
      fun y hy => hrest y (List.mem_append_right _ hy)
    simp only []
    rw [ratePost_fst_ratings db _ P.id v2 now2 p U hp hU h2.1 h2.2]
    rw [hl, ← hlen, set_split]
    rw [findIdx?_split_eq _ a _ b ha' (by simp)]
    simp only []
    rw [set_split, List.filter_append, List.filter_cons]
    simp [filter_eq_nil_of_forall _ _ ha', filter_eq_nil_of_forall _ _ hb']

theorem ratePost_twice_single_witness :
    (ratePost (ratePost sampleDB samplePost.id (.num 3) 10).1 samplePost.id (.num 5) 11).1.ratings.filter
        (fun x => x.postId == samplePost.id && x.userId == sampleConsumer.id) =
      [{ postId := samplePost.id, userId := sampleConsumer.id, rating := 5, at_ := 11 }] :=
  ratePost_twice_single sampleDB samplePost sampleConsumer 3 5 10 11
    (by decide) (by decide) (by decide) (by norm_num) (by norm_num)

/-- C4: when the admin delete-post operation succeeds for an id, no post with
that id is left and no Like, Rating or Comment with that `postId` is left. -/
theorem deletePost_cascade (db : DB) (id : String)
    (hok : (deletePost db id).2 = .json 200 .ok) :
    (∀ p ∈ (deletePost db id).1.posts, p.id ≠ id) ∧
    (∀ x ∈ (deletePost db id).1.likes, x.postId ≠ id) ∧
    (∀ x ∈ (deletePost db id).1.ratings, x.postId ≠ id) ∧
    (∀ x ∈ (deletePost db id).1.comments, x.postId ≠ id) := by
  unfold deletePost at hok ⊢
  cases hme : getMe db with
  | none => simp [hme] at hok
  | some me =>
    by_cases hrole : (me.role != "admin") = true
    · simp [hme, hrole] at hok
    · simp only [hme, hrole]
      refine ⟨?_, ?_, ?_, ?_⟩ <;>
      · intro x hx
        simpa using (List.mem_filter.mp hx).2

theorem deletePost_cascade_witness :
    (deletePost sampleAdminDB "p1").2 = .json 200 .ok ∧
    (∀ p ∈ (deletePost sampleAdminDB "p1").1.posts, p.id ≠ "p1") ∧
    (∀ x ∈ (deletePost sampleAdminDB "p1").1.likes, x.postId ≠ "p1") ∧
    (∀ x ∈ (deletePost sampleAdminDB "p1").1.ratings, x.postId ≠ "p1") ∧
    (∀ x ∈ (deletePost sampleAdminDB "p1").1.comments, x.postId ≠ "p1") :=
  ⟨by decide, deletePost_cascade sampleAdminDB "p1" (by decide)⟩

/-- C5: whatever the prior aggregate, reset replaces it by the result of
`seedDB`, which does not depend on the prior aggregate and has exactly 6 users,
8 posts, 8 ratings, 4 comments, no likes, and `activeUserId = "u_consumer"`, the
id of the seeded consumer. -/
theorem adminReset_yields_seed (db other : DB) (now : Int) (nano : Nat → String) :
    (adminReset db now nano).1 = seedDB now nano ∧
    (adminReset db now nano).1 = (adminReset other now nano).1 ∧
    (adminReset db now nano).2 = .json 200 .ok ∧
    (adminReset db now nano).1.users.length = 6 ∧
    (adminReset db now nano).1.posts.length = 8 ∧
    (adminReset db now nano).1.ratings.length = 8 ∧
    (adminReset db now nano).1.comments.length = 4 ∧
    (adminReset db now nano).1.likes = [] ∧
    (adminReset db now nano).1.activeUserId = "u_consumer" ∧
    getMe (adminReset db now nano).1 =
      some { id := "u_consumer", name := "Consumer", role := "consumer" } := by
  refine ⟨rfl, rfl, rfl, rfl, rfl, rfl, ?_, rfl, rfl, ?_⟩
  · simp [adminReset, seedDB, seedPosts, seedPostData, List.enum, List.enumFrom, List.filter_cons]
  · simp [adminReset, seedDB, getMe, List.find?]

/-- C6: (scenario) from the seeded aggregate, whose active user is the consumer,
rating `posts[0]` with 3 and then with 5 gives a `rating_count` of the seed
baseline plus 1 and `my_rating = 5`; (general) after a valid rate of an existing
post `P` by the active user `U` with value `v`, `my_rating` for `(P, U)` is `v`
and `rating_count` has grown by 1 when `U` had no Rating on `P` and is unchanged
otherwise. -/
theorem ratePost_count_and_my_rating :
    (∀ (now : Int) (nano : Nat → String) (now1 now2 : Int) (P0 : Post),
      (seedDB now nano).posts[0]? = some P0 →
      getMe (seedDB now nano) = some sampleConsumer ∧
      (summarizePost (ratePost (ratePost (seedDB now nano) P0.id (.num 3) now1).1
          P0.id (.num 5) now2).1 P0 sampleConsumer).rating_count =
        (summarizePost (seedDB now nano) P0 sampleConsumer).rating_count + 1 ∧
      (summarizePost (ratePost (ratePost (seedDB now nano) P0.id (.num 3) now1).1
          P0.id (.num 5) now2).1 P0 sampleConsumer).my_rating = 5) ∧
    (∀ (db : DB) (P : Post) (U : User) (v : ℚ) (now : Int),
      P ∈ db.posts → getMe db = some U → 1 ≤ v → v ≤ 5 →
      (summarizePost (ratePost db P.id (.num v) now).1 P U).my_rating = v ∧
      (summarizePost (ratePost db P.id (.num v) now).1 P U).rating_count =
        (summarizePost db P U).rating_count +
          (if db.ratings.any (fun x => x.postId == P.id && x.userId == U.id) then 0 else 1)) := by
  constructor
  · intro now nano now1 now2 P0 h0
    have hP0 : P0 ∈ (seedDB now nano).posts := List.getElem?_mem h0
    have hU : getMe (seedDB now nano) = some sampleConsumer := seed_getMe now nano
    have hany0 : (seedDB now nano).ratings.any
        (fun x => x.postId == P0.id && x.userId == sampleConsumer.id) = false := by
      rw [Bool.eq_false_iff]
      intro h
      rw [List.any_eq_true] at h
      obtain ⟨y, hy, hyq⟩ := h
      have hseed := seed_ratings_userId now nano y hy
      simp [hseed, sampleConsumer] at hyq
    obtain ⟨⟨R, hR⟩, hany1, -, hc1⟩ :=
      ratePost_effect (seedDB now nano) P0 sampleConsumer 3 now1 hP0 hU (by norm_num) (by norm_num)
    have hP1 : P0 ∈ (ratePost (seedDB now nano) P0.id (.num 3) now1).1.posts := by
      rw [hR]; exact hP0
    have hU1 : getMe (ratePost (seedDB now nano) P0.id (.num 3) now1).1 = some sampleConsumer := by
      rw [hR]; exact hU
    obtain ⟨-, -, hm2, hc2⟩ :=
      ratePost_effect (ratePost (seedDB now nano) P0.id (.num 3) now1).1 P0 sampleConsumer 5 now2
        hP1 hU1 (by norm_num) (by norm_num)
    refine ⟨hU, ?_, hm2⟩
    rw [hc2, if_pos hany1, hc1, hany0]
    simp
  · intro db P U v now hP hU h1 h5
    obtain ⟨-, -, hm, hc⟩ := ratePost_effect db P U v now hP hU h1 h5
    exact ⟨hm, hc⟩

theorem ratePost_count_and_my_rating_witness :
    (summarizePost (ratePost sampleDB samplePost.id (.num 4) 12).1 samplePost
        sampleConsumer).my_rating = 4 ∧
    (summarizePost (ratePost sampleDB samplePost.id (.num 4) 12).1 samplePost
        sampleConsumer).rating_count =
      (summarizePost sampleDB samplePost sampleConsumer).rating_count +
        (if sampleDB.ratings.any
            (fun x => x.postId == samplePost.id && x.userId == sampleConsumer.id) then 0 else 1) :=
  ratePost_count_and_my_rating.2 sampleDB samplePost sampleConsumer 4 12
    (by decide) (by decide) (by norm_num) (by norm_num)

/-- C7: for every `tags` (resp. `people`) input string of create-post, the stored
list is made of the comma-separated pieces of the input (joined by commas they
give back the input, and none contains a comma), each trimmed of surrounding
white space, the empty ones dropped, in input order, cut to the first 12
(resp. 10); `"a,b,c"` gives exactly `["a","b","c"]`; a created post holds these
lists and so has at most 12 tags and at most 10 people. -/
theorem createPost_lists :
    (∀ (n : Nat) (s : String),
      parseList n (some s) =
        ((((jsSplitComma s.data).map jsTrimChars).filter (fun cs => decide (cs ≠ []))).take n).map
          String.mk) ∧
    (∀ cs : List Char, List.intercalate [','] (jsSplitComma cs) = cs ∧
      ∀ p ∈ jsSplitComma cs, ',' ∉ p) ∧
    (∀ cs : List Char, ∃ l r, cs = l ++ jsTrimChars cs ++ r ∧
      (∀ c ∈ l, isJsSpace c = true) ∧ (∀ c ∈ r, isJsSpace c = true) ∧
      (∀ c, (jsTrimChars cs).head? = some c → isJsSpace c = false) ∧
      (∀ c, (jsTrimChars cs).getLast? = some c → isJsSpace c = false)) ∧
    parseList 12 (some "a,b,c") = ["a", "b", "c"] ∧
    (∀ (n : Nat) (x : Option String), (parseList n x).length ≤ n) ∧
    (∀ (db : DB) (file : Bool) (title caption location people tags : Option String)
        (imageUrl newId : String) (now : Int) (code : Nat) (v : PostView),
      (createPost db file title caption location people tags imageUrl newId now).2 =
          .json code (.post v) →
      (createPost db file title caption location people tags imageUrl newId now).1.posts =
          v.post :: db.posts ∧
      v.post.tags = parseList 12 tags ∧ v.post.people = parseList 10 people ∧
      v.post.tags.length ≤ 12 ∧ v.post.people.length ≤ 10) := by
  refine ⟨?_, ?_, jsTrimChars_spec, ?_, ?_, ?_⟩
  · intro n s
    have hor : orDefault (some s) "" = s := by
      unfold orDefault
      by_cases hs : s = ""
      · simp [hs]
      · simp [hs]
    have hfun : (fun cs : List Char => !cs.isEmpty) = (fun cs => decide (cs ≠ [])) := by
      funext cs
      cases cs <;> simp
    unfold parseList
    rw [hor, hfun]
  · intro cs
    exact ⟨intercalate_jsSplitComma cs, jsSplitComma_no_comma cs⟩
  · decide
  · intro n x
    unfold parseList
    rw [List.length_map]
    exact List.length_take_le n _
  · intro db file title caption location people tags imageUrl newId now code v h
    unfold createPost at h ⊢
    cases hme : getMe db with
    | none => simp [hme] at h
    | some me =>
      simp only [hme] at h ⊢
      by_cases h1 : (!(me.role == "creator" || me.role == "admin")) = true
      · simp [h1] at h
      · by_cases h2 : (!file) = true
        · simp [h1, h2] at h
        · simp only [h1, h2, if_false, Reply.json.injEq, Body.post.injEq] at h ⊢
          obtain ⟨-, rfl⟩ := h
          refine ⟨rfl, rfl, rfl, ?_, ?_⟩
          · show (parseList 12 tags).length ≤ 12
            unfold parseList
            rw [List.length_map]
            exact List.length_take_le _ _
          · show (parseList 10 people).length ≤ 10
            unfold parseList
            rw [List.length_map]
            exact List.length_take_le _ _

theorem createPost_lists_witness :
    ∃ v, (createPost sampleAdminDB true (some "Title") none none (some " Ann , Bob ")
        (some "a,b,c") "/uploads/2.jpg" "p2" 20).2 = .json 201 (.post v) ∧
      v.post.tags.length ≤ 12 ∧ v.post.people.length ≤ 10 := by
  refine ⟨_, rfl, ?_⟩
  exact (createPost_lists.2.2.2.2.2 sampleAdminDB true (some "Title") none none
    (some " Ann , Bob ") (some "a,b,c") "/uploads/2.jpg" "p2" 20 201 _ rfl).2.2.2

/-- C8: for an existing post, the rate operation answers with the validation
error exactly when the requested value is not a finite number within `[1,5]`
(for instance 6), and then the aggregate is unchanged; every Rating the
operation leaves in the collection either was there before or has its rating
within `[1,5]`. -/
theorem ratePost_validation (db : DB) (P : Post) (r : JsNum) (now : Int) (hP : P ∈ db.posts) :
    ((ratePost db P.id r now).2 = .error 400 "rating must be 1-5" ↔ ¬ ValidRating r) ∧
    (¬ ValidRating r → (ratePost db P.id r now).1 = db) ∧
    ratePost db P.id (.num 6) now = (db, .error 400 "rating must be 1-5") ∧
    (∀ id : String, ∀ x ∈ (ratePost db id r now).1.ratings,
      x ∈ db.ratings ∨ (1 ≤ x.rating ∧ x.rating ≤ 5)) := by
  obtain ⟨p, hp, -⟩ := find?_post_of_mem db P hP
  have hbad : ∀ r' : JsNum, ¬ ValidRating r' →
      ratePost db P.id r' now = (db, .error 400 "rating must be 1-5") := by
    intro r' hv
    have hb : (!r'.isFinite || r'.ltLit 1 || r'.gtLit 5) = true := by
      by_contra hne
      exact hv ((rejected_eq_false_iff r').mp (by simpa using hne))
    simp [ratePost, hp, hb]
  refine ⟨⟨?_, fun hv => by rw [hbad r hv]⟩, fun hv => by rw [hbad r hv], ?_, ?_⟩
  · intro hrep hv
    obtain ⟨q, rfl, h1, h5⟩ := hv
    have hb := (rejected_eq_false_iff (.num q)).mpr ⟨q, rfl, h1, h5⟩
    cases hme : getMe db with
    | none =>
      simp only [ratePost, hp, hme, hb] at hrep
      exact absurd hrep (by simp)
    | some me =>
      simp only [ratePost, hp, hme, hb] at hrep
      exact absurd hrep (by simp)
  · apply hbad
    rintro ⟨q, hq, -, h5⟩
    cases hq
    norm_num at h5
  · intro id x hx
    rcases ratePost_ratings_cases db id r now with h | ⟨me, q, -, h1, h5, -, h | ⟨idx, -, h⟩⟩
    · rw [h] at hx; exact Or.inl hx
    · rw [h.2] at hx
      rcases List.mem_cons.mp hx with rfl | hx
      · exact Or.inr ⟨h1, h5⟩
      · exact Or.inl hx
    · rw [h] at hx
      rcases List.mem_or_eq_of_mem_set hx with hx | rfl
      · exact Or.inl hx
      · exact Or.inr ⟨h1, h5⟩

theorem ratePost_validation_witness :
    ((ratePost sampleDB samplePost.id (.num 6) 30).2 = .error 400 "rating must be 1-5" ↔
      ¬ ValidRating (.num 6)) ∧
    (¬ ValidRating (.num 6) → (ratePost sampleDB samplePost.id (.num 6) 30).1 = sampleDB) ∧
    ratePost sampleDB samplePost.id (.num 6) 30 = (sampleDB, .error 400 "rating must be 1-5") ∧
    (∀ id : String, ∀ x ∈ (ratePost sampleDB id (.num 6) 30).1.ratings,
      x ∈ sampleDB.ratings ∨ (1 ≤ x.rating ∧ x.rating ≤ 5)) :=
  ratePost_validation sampleDB samplePost (.num 6) 30 (by decide)

/-- C9: the predicate "at most one Like and at most one Rating per
`(postId, userId)` pair" holds of the seeded aggregate (the ids generated by
`nanoid()` being pairwise different), is preserved by every mutating operation,
and so holds in every state reachable from seed. -/
theorem pairsUnique_invariant :
    (∀ (now : Int) (nano : Nat → String), FreshIds nano → PairsUnique (seedDB now nano)) ∧
    (∀ (db : DB) (op : Op), op.EnvOk → PairsUnique db → PairsUnique (step db op).1) ∧
    (∀ db : DB, Reachable db → PairsUnique db) := by
  refine ⟨seed_pairsUnique, step_pairsUnique, ?_⟩
  intro db hreach
  induction hreach with
  | seed now nano h => exact seed_pairsUnique now nano h
  | step db op _ henv ih => exact step_pairsUnique db op henv ih

theorem pairsUnique_invariant_witness :
    PairsUnique (seedDB 0 sampleNano) ∧
    PairsUnique (step sampleDB (.toggleLike "p1" 3)).1 ∧
    PairsUnique (step (seedDB 0 sampleNano) (.ratePost (sampleNano 0) (.num 3) 1)).1 :=
  ⟨pairsUnique_invariant.1 0 sampleNano (by decide),
    pairsUnique_invariant.2.1 sampleDB (.toggleLike "p1" 3) trivial (by decide),
    pairsUnique_invariant.2.2 _
      (Reachable.step _ (.ratePost (sampleNano 0) (.num 3) 1)
        (Reachable.seed 0 sampleNano (by decide)) trivial)⟩

/-- C10: `summarizePost(P, viewer).comments` is the first 25 elements of the
list `S` of the Comments of `P` stably sorted by `at` descending (`S` is a
permutation of them, ordered by `at` non-increasing, in which the comments of
equal `at` keep their order of the comments collection); its length is
`min(25, comment_count)`, it is ordered by `at` non-increasing, and every
omitted comment has `at` at most that of every included one. -/
theorem summarizePost_comments_recent (db : DB) (P : Post) (me : User) :
    ∃ S rest : List Comment,
      S = (summarizePost db P me).comments ++ rest ∧
      (summarizePost db P me).comments = S.take 25 ∧
      S.Perm (db.comments.filter (fun x => x.postId == P.id)) ∧
      S.Pairwise (fun a b => b.at_ ≤ a.at_) ∧
      (∀ t : Int, S.filter (fun c => c.at_ == t) =
        (db.comments.filter (fun x => x.postId == P.id)).filter (fun c => c.at_ == t)) ∧
      (summarizePost db P me).comment_count =
        (db.comments.filter (fun x => x.postId == P.id)).length ∧
      (summarizePost db P me).comments.length = min 25 (summarizePost db P me).comment_count ∧
      (summarizePost db P me).comments.Pairwise (fun a b => b.at_ ≤ a.at_) ∧
      (∀ c ∈ rest, ∀ d ∈ (summarizePost db P me).comments, c.at_ ≤ d.at_) := by
  obtain ⟨hperm, hsorted, hstable⟩ :=
    comment_sort_spec (db.comments.filter (fun x => x.postId == P.id))
  refine ⟨(db.comments.filter (fun x : Comment => x.postId == P.id)).mergeSort commentLe,
    ((db.comments.filter (fun x : Comment => x.postId == P.id)).mergeSort commentLe).drop 25,
    ?_, rfl, hperm, hsorted, hstable, rfl, ?_, ?_, ?_⟩
  · rw [summarizePost_comments, List.take_append_drop]
  · rw [summarizePost_comments, summarizePost_comment_count, List.length_take,
      List.length_mergeSort]
  · rw [summarizePost_comments]
    exact hsorted.sublist (List.take_sublist _ _)
  · intro c hc d hd
    rw [summarizePost_comments] at hd
    have hsplit := hsorted
    rw [← List.take_append_drop 25
      ((db.comments.filter (fun x => x.postId == P.id)).mergeSort commentLe)] at hsplit
    exact (List.pairwise_append.mp hsplit).2.2 d hd c hc

/-- C11: evaluation of the code at the failing input. From the seeded aggregate,
the consumer gives itself the admin role and deletes its own user; the handler
resets `activeUserId` to `"u_consumer"`, the id just removed, so the reachable
aggregate has an `activeUserId` that is the id of no user (`getMe` then falls
back to the first user). -/
theorem activeUserId_dangles_after_self_delete :
    Reachable selfDeletedDB ∧
    selfDeletedDB.activeUserId = "u_consumer" ∧
    (∀ u ∈ selfDeletedDB.users, u.id ≠ selfDeletedDB.activeUserId) ∧
    getMe selfDeletedDB = some { id := "u_admin", name := "Admin", role := "admin" } := by
  refine ⟨?_, by decide, by decide, by decide⟩
  exact Reachable.step _ (.deleteUser "u_consumer")
    (Reachable.step _ (.authUpdate (some "Consumer") (some "admin"))
      (Reachable.seed 0 sampleNano (by decide)) trivial) trivial

/-- C17: when the acting user returned by `getMe` is not an admin, create user,
delete user, admin toggle status, admin delete post and admin export answer
`403` and leave the aggregate unchanged, whatever their other inputs; when it
is neither creator nor admin, create post does the same. -/
theorem role_gate_rejects (db : DB) (me : User) (hme : getMe db = some me) :
    (me.role ≠ "admin" →
      (∀ name role newId, createUser db name role newId = (db, .error 403 "Admin only")) ∧
      (∀ id, deleteUser db id = (db, .error 403 "Admin only")) ∧
      (∀ id, toggleStatus db id = (db, .error 403 "Admin only")) ∧
      (∀ id, deletePost db id = (db, .error 403 "Admin only")) ∧
      adminExport db = (db, .error 403 "Admin only")) ∧
    (me.role ≠ "creator" → me.role ≠ "admin" →
      ∀ file title caption location people tags imageUrl newId now,
        createPost db file title caption location people tags imageUrl newId now =
          (db, .error 403 "Creator/Admin only")) := by
  constructor
  · intro hrole
    have hb : (me.role != "admin") = true := by simpa using hrole
    refine ⟨?_, ?_, ?_, ?_, ?_⟩
    · intro name role newId; simp [createUser, hme, hb]
    · intro id; simp [deleteUser, hme, hb]
    · intro id; simp [toggleStatus, hme, hb]
    · intro id; simp [deletePost, hme, hb]
    · simp [adminExport, hme, hb]
  · intro hc ha file title caption location people tags imageUrl newId now
    simp [createPost, hme, hc, ha]

theorem role_gate_rejects_witness :
    (sampleConsumer.role ≠ "admin" →
      (∀ name role newId, createUser sampleDB name role newId =
        (sampleDB, .error 403 "Admin only")) ∧
      (∀ id, deleteUser sampleDB id = (sampleDB, .error 403 "Admin only")) ∧
      (∀ id, toggleStatus sampleDB id = (sampleDB, .error 403 "Admin only")) ∧
      (∀ id, deletePost sampleDB id = (sampleDB, .error 403 "Admin only")) ∧
      adminExport sampleDB = (sampleDB, .error 403 "Admin only")) ∧
    (sampleConsumer.role ≠ "creator" → sampleConsumer.role ≠ "admin" →
      ∀ file title caption location people tags imageUrl newId now,
        createPost sampleDB file title caption location people tags imageUrl newId now =
          (sampleDB, .error 403 "Creator/Admin only")) :=
  role_gate_rejects sampleDB sampleConsumer (by decide)

/-- C18: evaluation of the code at the failing input. The acting user of the
sample aggregate is a consumer, yet `POST /api/admin/reset` answers `ok` and
replaces the aggregate by the result of `seedDB`: the handler never reads
`getMe`, unlike the other admin handlers, which answer `403` to this user. -/
theorem adminReset_not_gated :
    getMe sampleDB = some sampleConsumer ∧ sampleConsumer.role ≠ "admin" ∧
    (adminReset sampleDB 0 sampleNano).2 = .json 200 .ok ∧
    (adminReset sampleDB 0 sampleNano).1 = seedDB 0 sampleNano ∧
    (adminReset sampleDB 0 sampleNano).1.users ≠ sampleDB.users ∧
    ¬ ((adminReset sampleDB 0 sampleNano).1 = sampleDB ∧
        ∃ msg, (adminReset sampleDB 0 sampleNano).2 = .error 403 msg) ∧
    toggleStatus sampleDB "p1" = (sampleDB, .error 403 "Admin only") ∧
    deletePost sampleDB "p1" = (sampleDB, .error 403 "Admin only") ∧
    adminExport sampleDB = (sampleDB, .error 403 "Admin only") := by
  refine ⟨by decide, by decide, rfl, rfl, by decide, ?_, ?_, ?_, ?_⟩
  · rintro ⟨-, msg, h⟩
    exact absurd h (by simp [adminReset])
  · simp [toggleStatus, getMe, sampleDB, sampleConsumer, sampleAdmin, List.find?]
  · simp [deletePost, getMe, sampleDB, sampleConsumer, sampleAdmin, List.find?]
  · simp [adminExport, getMe, sampleDB, sampleConsumer, sampleAdmin, List.find?]

/-- C19: delete-user with the id `"u_admin"` never succeeds and leaves the
aggregate unchanged (an acting user gets `403` when it is not an admin and `400`
when it is); so every state reachable from seed has a user with id `"u_admin"`,
a non-empty users collection, and a user returned by `getMe`. -/
theorem seed_admin_protected :
    (∀ db : DB, (deleteUser db "u_admin").1 = db ∧
      (∀ code body, (deleteUser db "u_admin").2 ≠ .json code body) ∧
      (∀ me, getMe db = some me →
        (me.role ≠ "admin" ∧ (deleteUser db "u_admin").2 = .error 403 "Admin only") ∨
        (me.role = "admin" ∧
          (deleteUser db "u_admin").2 = .error 400 "Cannot delete seeded admin"))) ∧
    (∀ db : DB, Reachable db →
      (∃ u ∈ db.users, u.id = "u_admin") ∧ db.users ≠ [] ∧
      ∃ u, getMe db = some u ∧ u ∈ db.users) := by
  constructor
  · intro db
    cases hme : getMe db with
    | none => simp [deleteUser, hme]
    | some me =>
      by_cases hrole : me.role = "admin"
      · simp [deleteUser, hme, hrole]
      · have hb : (me.role != "admin") = true := by simpa using hrole
        simp [deleteUser, hme, hb, hrole]
  · intro db hreach
    have hadm := reachable_hasSeedAdmin db hreach
    unfold HasSeedAdmin at hadm
    obtain ⟨u, hu, hid⟩ := List.mem_map.mp hadm
    have hne : db.users ≠ [] := List.ne_nil_of_mem hu
    exact ⟨⟨u, hu, hid⟩, hne, getMe_of_ne_nil db hne⟩

theorem seed_admin_protected_witness :
    (∃ u ∈ (seedDB 0 sampleNano).users, u.id = "u_admin") ∧ (seedDB 0 sampleNano).users ≠ [] ∧
      ∃ u, getMe (seedDB 0 sampleNano) = some u ∧ u ∈ (seedDB 0 sampleNano).users :=
  seed_admin_protected.2 (seedDB 0 sampleNano) (Reachable.seed 0 sampleNano (by decide))

/-- C20: a successful delete-post of `d` leaves posts, likes, ratings and
comments as the prior collections without the records of `d` (in their prior
order), keeps users and `activeUserId`, and does not change
`summarizePost(Q, viewer)` for any post `Q` with another id and any viewer. -/
theorem deletePost_frame (db : DB) (d : String)
    (hok : (deletePost db d).2 = .json 200 .ok) :
    (deletePost db d).1.posts = db.posts.filter (fun p => p.id != d) ∧
    (deletePost db d).1.likes = db.likes.filter (fun x => x.postId != d) ∧
    (deletePost db d).1.ratings = db.ratings.filter (fun x => x.postId != d) ∧
    (deletePost db d).1.comments = db.comments.filter (fun x => x.postId != d) ∧
    (deletePost db d).1.users = db.users ∧
    (deletePost db d).1.activeUserId = db.activeUserId ∧
    (∀ (Q : Post) (viewer : User), Q.id ≠ d →
      summarizePost (deletePost db d).1 Q viewer = summarizePost db Q viewer) := by
  obtain ⟨me, hme, hrole⟩ := deletePost_ok_admin db d hok
  rw [deletePost_admin db d me hme hrole]
  refine ⟨rfl, rfl, rfl, rfl, rfl, rfl, ?_⟩
  intro Q viewer hQ
  simp only [summarizePost]
  rw [filter_other_post Like.postId db.likes Q.id d hQ,
    filter_other_post Rating.postId db.ratings Q.id d hQ,
    filter_other_post Comment.postId db.comments Q.id d hQ]

theorem deletePost_frame_witness :
    (deletePost sampleAdminDB "p1").1.posts = sampleAdminDB.posts.filter (fun p => p.id != "p1") ∧
    (deletePost sampleAdminDB "p1").1.likes =
      sampleAdminDB.likes.filter (fun x => x.postId != "p1") ∧
    (deletePost sampleAdminDB "p1").1.ratings =
      sampleAdminDB.ratings.filter (fun x => x.postId != "p1") ∧
    (deletePost sampleAdminDB "p1").1.comments =
      sampleAdminDB.comments.filter (fun x => x.postId != "p1") ∧
    (deletePost sampleAdminDB "p1").1.users = sampleAdminDB.users ∧
    (deletePost sampleAdminDB "p1").1.activeUserId = sampleAdminDB.activeUserId ∧
    (∀ (Q : Post) (viewer : User), Q.id ≠ "p1" →
      summarizePost (deletePost sampleAdminDB "p1").1 Q viewer =
        summarizePost sampleAdminDB Q viewer) :=
  deletePost_frame sampleAdminDB "p1" (by decide)

/-- C15 (as stated, refuted): in the sample aggregate, whose acting user is a
consumer, admin toggle status with a post id matching no post answers `403`,
not a not-found error; and switch with the empty user id, which matches no
user, answers `400`. -/
theorem not_found_counterexample :
    (∀ p ∈ sampleDB.posts, p.id ≠ "nope") ∧
    toggleStatus sampleDB "nope" = (sampleDB, .error 403 "Admin only") ∧
    (∀ u ∈ sampleDB.users, u.id ≠ "") ∧
    authSwitch sampleDB (some "") = (sampleDB, .error 400 "userId is required") := by
  refine ⟨by decide, by decide, by decide, by decide⟩

/-- C15 (amended): with a post id matching no post, toggle like, rate, add
comment and get post answer `404` and leave the aggregate unchanged; admin
toggle status leaves it unchanged and answers `404` when the acting user is an
admin; switch with a non-empty user id matching no user answers `404` and
leaves the aggregate unchanged. -/
theorem not_found_unchanged (db : DB) (id : String) (hid : ∀ p ∈ db.posts, p.id ≠ id) :
    (∀ now, toggleLike db id now = (db, .error 404 "Post not found")) ∧
    (∀ r now, ratePost db id r now = (db, .error 404 "Post not found")) ∧
    (∀ text newId now, addComment db id text newId now = (db, .error 404 "Post not found")) ∧
    getPost db id = (db, .error 404 "Post not found") ∧
    (toggleStatus db id).1 = db ∧
    (∀ me, getMe db = some me → me.role = "admin" →
      toggleStatus db id = (db, .error 404 "Post not found")) ∧
    (∀ uid : String, uid ≠ "" → (∀ u ∈ db.users, u.id ≠ uid) →
      authSwitch db (some uid) = (db, .error 404 "User not found")) := by
  have hp := find?_post_none db id hid
  refine ⟨?_, ?_, ?_, ?_, ?_, ?_, ?_⟩
  · intro now; simp [toggleLike, hp]
  · intro r now; simp [ratePost, hp]
  · intro text newId now; simp [addComment, hp]
  · simp [getPost, hp]
  · unfold toggleStatus
    split
    · rfl
    · split_ifs
      · rfl
      · simp [hp]
  · intro me hme hrole
    simp [toggleStatus, hme, hrole, hp]
  · intro uid huid hu
    have hf : db.users.find? (fun x => x.id == uid) = none := by
      rw [List.find?_eq_none]
      intro u hmem
      simpa using hu u hmem
    simp [authSwitch, huid, hf]

theorem not_found_unchanged_witness :
    (∀ now, toggleLike sampleAdminDB "nope" now = (sampleAdminDB, .error 404 "Post not found")) ∧
    (∀ r now, ratePost sampleAdminDB "nope" r now =
      (sampleAdminDB, .error 404 "Post not found")) ∧
    (∀ text newId now, addComment sampleAdminDB "nope" text newId now =
      (sampleAdminDB, .error 404 "Post not found")) ∧
    getPost sampleAdminDB "nope" = (sampleAdminDB, .error 404 "Post not found") ∧
    (toggleStatus sampleAdminDB "nope").1 = sampleAdminDB ∧
    (∀ me, getMe sampleAdminDB = some me → me.role = "admin" →
      toggleStatus sampleAdminDB "nope" = (sampleAdminDB, .error 404 "Post not found")) ∧
    (∀ uid : String, uid ≠ "" → (∀ u ∈ sampleAdminDB.users, u.id ≠ uid) →
      authSwitch sampleAdminDB (some uid) = (sampleAdminDB, .error 404 "User not found")) :=
  not_found_unchanged sampleAdminDB "nope" (by decide)

/-- C16 (as stated, refuted): in the sample aggregate with the admin as acting
user, delete-post with a post id matching no post and delete-user with a user
id matching no user both answer `ok`, not a not-found error. -/
theorem delete_not_found_counterexample :
    getMe sampleAdminDB = some sampleAdmin ∧ sampleAdmin.role = "admin" ∧
    (∀ p ∈ sampleAdminDB.posts, p.id ≠ "nope") ∧
    (deletePost sampleAdminDB "nope").2 = .json 200 .ok ∧
    (∀ u ∈ sampleAdminDB.users, u.id ≠ "nobody") ∧
    (deleteUser sampleAdminDB "nobody").2 = .json 200 .ok := by
  refine ⟨by decide, by decide, by decide, by decide, by decide, by decide⟩

/-- C16 (amended): when the acting user is an admin, delete-post with an id
matching no post answers `ok`, keeps users, `activeUserId` and posts, and
leaves the whole aggregate unmodified when no Like, Rating or Comment carries
that id; delete-user with an id other than `"u_admin"` matching no user answers
`ok`, keeps users, posts, likes, ratings and comments, and leaves the whole
aggregate unmodified when `activeUserId` is not that id. -/
theorem delete_missing_is_ok (db : DB) (me : User) (hme : getMe db = some me)
    (hrole : me.role = "admin") :
    (∀ id : String, (∀ p ∈ db.posts, p.id ≠ id) →
      (deletePost db id).2 = .json 200 .ok ∧
      (deletePost db id).1.posts = db.posts ∧
      (deletePost db id).1.users = db.users ∧
      (deletePost db id).1.activeUserId = db.activeUserId ∧
      ((∀ x ∈ db.likes, x.postId ≠ id) → (∀ x ∈ db.ratings, x.postId ≠ id) →
        (∀ x ∈ db.comments, x.postId ≠ id) → (deletePost db id).1 = db)) ∧
    (∀ id : String, id ≠ "u_admin" → (∀ u ∈ db.users, u.id ≠ id) →
      (deleteUser db id).2 = .json 200 .ok ∧
      (deleteUser db id).1.users = db.users ∧
      (deleteUser db id).1.posts = db.posts ∧
      (deleteUser db id).1.likes = db.likes ∧
      (deleteUser db id).1.ratings = db.ratings ∧
      (deleteUser db id).1.comments = db.comments ∧
      (db.activeUserId ≠ id → (deleteUser db id).1 = db)) := by
  constructor
  · intro id hid
    rw [deletePost_admin db id me hme hrole]
    have hposts : db.posts.filter (fun p => p.id != id) = db.posts := by
      rw [List.filter_eq_self]
      intro p hp
      simpa using hid p hp
    refine ⟨rfl, hposts, rfl, rfl, ?_⟩
    intro hl hr hc
    have hlikes : db.likes.filter (fun x => x.postId != id) = db.likes := by
      rw [List.filter_eq_self]
      intro x hx
      simpa using hl x hx
    have hratings : db.ratings.filter (fun x => x.postId != id) = db.ratings := by
      rw [List.filter_eq_self]
      intro x hx
      simpa using hr x hx
    have hcomments : db.comments.filter (fun x => x.postId != id) = db.comments := by
      rw [List.filter_eq_self]
      intro x hx
      simpa using hc x hx
    simp only [hposts, hlikes, hratings, hcomments]
  · intro id hne hid
    have husers : db.users.filter (fun u => u.id != id) = db.users := by
      rw [List.filter_eq_self]
      intro u hu
      simpa using hid u hu
    have hdel : deleteUser db id =
        ({ db with
            users := db.users.filter (fun u => u.id != id)
            activeUserId := if db.activeUserId == id then "u_consumer" else db.activeUserId },
          .json 200 .ok) := by
      simp [deleteUser, hme, hrole, hne]
    rw [hdel]
    refine ⟨rfl, husers, rfl, rfl, rfl, rfl, ?_⟩
    intro hact
    have : (db.activeUserId == id) = false := by simpa using hact
    simp only [husers, this]
    rfl

theorem delete_missing_is_ok_witness :
    (deletePost sampleAdminDB "nope").2 = .json 200 .ok ∧
    (deletePost sampleAdminDB "nope").1.posts = sampleAdminDB.posts ∧
    (deleteUser sampleAdminDB "nobody").2 = .json 200 .ok ∧
    (deleteUser sampleAdminDB "nobody").1.users = sampleAdminDB.users :=
  have h := delete_missing_is_ok sampleAdminDB sampleAdmin (by decide) (by decide)
  ⟨((h.1 "nope" (by decide)).1), ((h.1 "nope" (by decide)).2.1),
    ((h.2 "nobody" (by decide) (by decide)).1), ((h.2 "nobody" (by decide) (by decide)).2.1)⟩

/-- C12: evaluation of the code at the failing input. On the file backend a load
after a save returns the saved aggregate. On the partitioned backend `saveDB`
only upserts: after saving the sample aggregate and then the aggregate in which
the consumer has toggled its Like off, the load still returns that Like, while
the file backend returns none. -/
theorem saveDB_cosmos_keeps_removed_like :
    (∀ (st : Persisted) (a : DB), loadDB .file (saveDB .file st a) = some a) ∧
    (toggleLike sampleDB "p1" 10).1.likes = [] ∧
    (loadDB .file (saveDB .file (saveDB .file ⟨none, []⟩ sampleDB)
      (toggleLike sampleDB "p1" 10).1)).map DB.likes = some [] ∧
    (loadDB .cosmos (saveDB .cosmos (saveDB .cosmos ⟨none, []⟩ sampleDB)
      (toggleLike sampleDB "p1" 10).1)).map DB.likes =
        some [{ postId := "p1", userId := "u_consumer", at_ := 5,
                id := some "p1:u_consumer" }] := by
  refine ⟨fun _ _ => rfl, by decide, by decide, by decide⟩

/-- C13: evaluation of the code at the failing input. The file backend returns
`null` when `db.json` does not exist, and start-up then seeds; the partitioned
backend never returns `null`: on an empty container it returns an aggregate
without any user, which start-up keeps instead of seeding, and for which `getMe`
is `undefined`. -/
theorem loadDB_cosmos_never_null :
    (∀ c : List Item, loadDB .file ⟨none, c⟩ = none) ∧
    (∀ (c : List Item) (now : Int) (nano : Nat → String),
      startup .file ⟨none, c⟩ now nano = seedDB now nano) ∧
    (∀ st : Persisted, loadDB .cosmos st ≠ none) ∧
    loadDB .cosmos ⟨none, []⟩ =
      some { activeUserId := "u_consumer", users := [], posts := [], likes := [],
             ratings := [], comments := [] } ∧
    (∀ (now : Int) (nano : Nat → String), startup .cosmos ⟨none, []⟩ now nano =
      { activeUserId := "u_consumer", users := [], posts := [], likes := [],
        ratings := [], comments := [] }) ∧
    getMe { activeUserId := "u_consumer", users := [], posts := [], likes := [],
            ratings := [], comments := [] } = none := by
  refine ⟨fun _ => rfl, fun _ _ _ => rfl, fun st => by simp [loadDB], by decide,
    fun _ _ => ?_, by decide⟩
  simp [startup, loadDB, loadCosmos, orDefault]

/-- C14: a Like or Rating without an explicit id is written under the item id
`postId ++ ":" ++ userId`; `saveDB` on the partitioned backend is the sequence of
upserts of `saveItems`; and on a container whose items have pairwise different
`(type, id)`, saving the same aggregate a second time leaves the container as
the first save left it. -/
theorem saveCosmos_idempotent :
    (∀ x : Like, (x.id = none ∨ x.id = some "") →
      (likeItem x).type = "like" ∧ (likeItem x).id = x.postId ++ ":" ++ x.userId) ∧
    (∀ x : Rating, (x.id = none ∨ x.id = some "") →
      (ratingItem x).type = "rating" ∧ (ratingItem x).id = x.postId ++ ":" ++ x.userId) ∧
    (∀ (s : List Item) (db : DB), saveCosmos s db = (saveItems db).foldl upsert s) ∧
    (∀ (db : DB) (x : Like), x ∈ db.likes → likeItem x ∈ saveItems db) ∧
    (∀ (db : DB) (x : Rating), x ∈ db.ratings → ratingItem x ∈ saveItems db) ∧
    (∀ (s : List Item) (db : DB), KeysUnique s →
      KeysUnique (saveCosmos s db) ∧ saveCosmos (saveCosmos s db) db = saveCosmos s db) ∧
    (∀ (st : Persisted) (db : DB), KeysUnique st.container →
      saveDB .cosmos (saveDB .cosmos st db) db = saveDB .cosmos st db) := by
  have hidem : ∀ (s : List Item) (db : DB), KeysUnique s →
      KeysUnique (saveCosmos s db) ∧ saveCosmos (saveCosmos s db) db = saveCosmos s db := by
    intro s db h
    rw [saveCosmos_eq_foldl, saveCosmos_eq_foldl]
    exact ⟨keysUnique_foldl _ s h, foldl_upsert_idem _ s h⟩
  refine ⟨?_, ?_, saveCosmos_eq_foldl, ?_, ?_, hidem, ?_⟩
  · intro x hx
    rcases hx with hx | hx <;> simp [likeItem, Item.type, Item.id, orDefault, hx]
  · intro x hx
    rcases hx with hx | hx <;> simp [ratingItem, Item.type, Item.id, orDefault, hx]
  · intro db x hx
    simp only [saveItems, List.mem_cons, List.mem_append, List.mem_map]
    exact Or.inr (Or.inr (Or.inr (Or.inl ⟨x, hx, rfl⟩)))
  · intro db x hx
    simp only [saveItems, List.mem_cons, List.mem_append, List.mem_map]
    exact Or.inr (Or.inr (Or.inr (Or.inr (Or.inl ⟨x, hx, rfl⟩))))
  · intro st db h
    simp only [saveDB]
    rw [(hidem st.container db h).2]

theorem saveCosmos_idempotent_witness :
    KeysUnique (saveCosmos [] sampleDB) ∧
    saveCosmos (saveCosmos [] sampleDB) sampleDB = saveCosmos [] sampleDB :=
  saveCosmos_idempotent.2.2.2.2.2.1 [] sampleDB (by decide)

end OpenBook
